import Mathlib

/-!
Verification development for the klingon-assistant-data repository.

Python strings are modelled as lists of characters (`PyStr`); Python dicts
as association lists; Python exceptions as `Except Unit`.  Each Python
function of the definition-parsing core (`build/definition_parser.py`) and
of the query/rendering core (`book/dictionary.py`) is translated into a
Lean definition of the same name (camel-cased).  Functions whose Python
recursion is a `while` loop over a shrinking string are given an explicit
fuel argument (always called with fuel at least the string length, which a
step-consumes-at-least-one-character argument shows to be sufficient);
this keeps every definition structurally recursive and kernel-evaluable.
-/

abbrev PyStr := List Char

def strL (s : String) : PyStr := s.toList

/-- Python whitespace (`str.split`, `str.strip`, `\s`) over ASCII. -/
def pyIsSpace (c : Char) : Bool :=
  c = ' ' ∨ c = '\t' ∨ c = '\n' ∨ c = '\x0d' ∨ c = '\x0b' ∨ c = '\x0c'

/-- Python `str.strip()`. -/
def pyStrip (s : PyStr) : PyStr :=
  ((s.dropWhile pyIsSpace).reverse.dropWhile pyIsSpace).reverse

/-- Python `str.lower()` (ASCII). -/
def pyLower (s : PyStr) : PyStr := s.map Char.toLower

/-- `startsWithL n s`: Python `s.startswith(n)`. -/
def startsWithL : PyStr → PyStr → Bool
  | [], _ => true
  | _ :: _, [] => false
  | a :: as_, b :: bs => a = b && startsWithL as_ bs

/-- Python `s.endswith(n)`. -/
def endsWithL (n s : PyStr) : Bool := startsWithL n.reverse s.reverse

/-- Python `n in s` (substring containment). -/
def isSubstr : PyStr → PyStr → Bool
  | n, [] => n.isEmpty
  | n, hay@(_ :: rest) => startsWithL n hay || isSubstr n rest

/-- Python `str.split()` with no argument: split on whitespace runs, no
empty pieces.  Fueled; each step consumes at least one character. -/
def splitWSF : Nat → PyStr → List PyStr
  | 0, _ => []
  | _ + 1, [] => []
  | f + 1, c :: rest =>
    if pyIsSpace c then splitWSF f rest
    else (c :: rest.takeWhile (fun x => !pyIsSpace x)) ::
      splitWSF f (rest.dropWhile (fun x => !pyIsSpace x))

def splitWS (s : PyStr) : List PyStr := splitWSF s.length s

/-- Python `str.split(sep)` for a one-character separator: keeps empty
pieces, `"".split(sep) == [""]`. -/
def pySplitChar (sep : Char) : PyStr → List PyStr
  | [] => [[]]
  | a :: rest =>
    if a = sep then [] :: pySplitChar sep rest
    else
      match pySplitChar sep rest with
      | t :: ts => (a :: t) :: ts
      | [] => [[a]]

/-- Python `str.split("@@")`. -/
def pySplitAtAt : PyStr → List PyStr
  | [] => [[]]
  | '@' :: '@' :: rest => [] :: pySplitAtAt rest
  | a :: rest =>
    match pySplitAtAt rest with
    | t :: ts => (a :: t) :: ts
    | [] => [[a]]

/-- Python `", ".join(parts)`-style join. -/
def joinWith (sep : PyStr) : List PyStr → PyStr
  | [] => []
  | [p] => p
  | p :: rest => p ++ sep ++ joinWith sep rest

/-- Python `str.replace(old, new)` for one-character `old`. -/
def pyReplaceChar (old : Char) (new : PyStr) (s : PyStr) : PyStr :=
  s.flatMap (fun c => if c = old then new else [c])

/-- Python `str.capitalize()` (ASCII). -/
def pyCapitalize : PyStr → PyStr
  | [] => []
  | c :: rest => c.toUpper :: pyLower rest

/-- Python `str.strip("h")`: remove `h` from both ends. -/
def stripHChar (s : PyStr) : PyStr :=
  ((s.dropWhile (· = 'h')).reverse.dropWhile (· = 'h')).reverse

def isDigitChar (c : Char) : Bool := '0' ≤ c ∧ c ≤ '9'

/-! ## build/definition_parser.py -/

structure DefinitionPart where
  text : PyStr
  sort_keyword : Option PyStr := none
deriving DecidableEq, Repr

structure ParsedDefinition where
  parts : List DefinitionPart
  global_parenthetical : Option PyStr := none
  raw_text : PyStr := []
  no_permute : Bool := false
  dedup : Bool := false
  etc_suffix : Bool := false
deriving DecidableEq, Repr

/-- One `re.sub(r'\s*\([^)]*\)\s*', ' ', text)` match attempt at the head
of `s`: optional whitespace, `(`, non-`)` characters, `)`, optional
trailing whitespace.  Returns the rest of the string after the match. -/
def matchParenAtHead (s : PyStr) : Option PyStr :=
  match s.dropWhile pyIsSpace with
  | '(' :: r =>
    match r.dropWhile (· ≠ ')') with
    | ')' :: r2 => some (r2.dropWhile pyIsSpace)
    | _ => none
  | _ => none

/-- The scan of `re.sub(r'\s*\([^)]*\)\s*', ' ', text)`: leftmost matches
replaced by a single space, continuing after each match.  Fueled. -/
def stripParensF : Nat → PyStr → PyStr
  | 0, s => s
  | _ + 1, [] => []
  | f + 1, s@(c :: rest) =>
    match matchParenAtHead s with
    | some rest2 => ' ' :: stripParensF f rest2
    | none => c :: stripParensF f rest

def stripParens (s : PyStr) : PyStr := stripParensF s.length s

/-- `DefinitionPart.get_sort_key`. -/
def getSortKey (p : DefinitionPart) (is_be_verb : Bool) : PyStr :=
  match p.sort_keyword with
  | some kw => pyLower kw
  | none =>
    let text := pyStrip p.text
    let tnp := pyStrip (stripParens text)
    let tnp :=
      if is_be_verb ∧ startsWithL (strL "be ") (pyLower tnp) then tnp.drop 3
      else tnp
    match splitWS tnp with
    | w :: _ => pyLower w
    | [] => pyLower text

/-- `split_on_delimiters`: split on delimiter characters outside
parentheses; pieces are stripped, empty pieces dropped. -/
def splitOnDelimitersGo (delims : List Char) : PyStr → Int → PyStr → List PyStr
  | [], _, cur => if pyStrip cur ≠ [] then [pyStrip cur] else []
  | c :: rest, depth, cur =>
    if c = '(' then splitOnDelimitersGo delims rest (depth + 1) (cur ++ [c])
    else if c = ')' then splitOnDelimitersGo delims rest (depth - 1) (cur ++ [c])
    else if c ∈ delims ∧ depth = 0 then
      (if pyStrip cur ≠ [] then [pyStrip cur] else []) ++
        splitOnDelimitersGo delims rest depth []
    else splitOnDelimitersGo delims rest depth (cur ++ [c])

def splitOnDelimiters (text : PyStr) (delims : List Char) : List PyStr :=
  splitOnDelimitersGo delims text 0 []

/-- `looks_like_item_list`. -/
def looksLikeItemList (parts : List PyStr) : Bool :=
  if parts.length ≤ 1 then false
  else
    let short_parts :=
      (parts.filter (fun p => (splitWS p).length = 1 ∧ p.length < 10)).length
    let first := pyLower (parts.headI)
    let list_preps := [strL "for", strL "of", strL "with", strL "about",
      strL "including", strL "such as", strL "like"]
    if list_preps.any (fun prep => isSubstr (' ' :: prep ++ [' ']) first) ∧
        parts.length - 1 ≤ short_parts then
      true
    else if parts.any (fun p => isSubstr (strL "etc") (pyLower p)) then true
    else false

/-- The backwards scan of `extract_trailing_parenthetical`: `rev` is the
reversed text, `depth` counts `)` minus `(`, `acc` the characters already
passed (in forward order).  On reaching the matching `(` returns
(text before it, characters from it to the end). -/
def etpGo : PyStr → Int → PyStr → Option (PyStr × PyStr)
  | [], _, _ => none
  | c :: rest, depth, acc =>
    if c = ')' then etpGo rest (depth + 1) (c :: acc)
    else if c = '(' then
      (if depth = 1 then some (rest.reverse, c :: acc)
       else etpGo rest (depth - 1) (c :: acc))
    else etpGo rest depth (c :: acc)

/-- `extract_trailing_parenthetical`. -/
def extractTrailingParenthetical (text : PyStr) : PyStr × Option PyStr :=
  let text := pyStrip text
  if ¬ endsWithL (strL ")") text then (text, none)
  else
    match etpGo text.reverse 0 [] with
    | some (before, seg) => (pyStrip before, some (pyStrip (seg.drop 1).dropLast))
    | none => (text, none)

def globalIndicators : List PyStr :=
  [strL "e.g.,", strL "i.e.,", strL "used in", strL "referring to",
   strL "for example", strL "in math", strL "in physics", strL "astronomy",
   strL "economics", strL "trigonometry", strL "general term", strL "verb type"]

/-- `is_global_parenthetical`. -/
def isGlobalParenthetical (parts : List PyStr) (last_paren : PyStr) : Bool :=
  if last_paren = [] then false
  else if parts.length ≤ 1 then false
  else if parts.dropLast.any (fun p => '(' ∈ p ∧ ')' ∈ p) then false
  else
    let base_last := pyStrip (extractTrailingParenthetical (parts.getLastI)).1
    if base_last ≠ [] ∧ ' ' ∉ base_last then true
    else
      let lp := pyLower last_paren
      globalIndicators.any (fun ind => isSubstr ind lp)

def guardStarts : List PyStr :=
  [strL "bird ", strL "a bird ", strL "a creature ", strL "bird with ",
   strL "bird capable ", strL "a kind of bird"]

def guardStarts2 : List PyStr :=
  [strL "good news,", strL "expletive,", strL "stop,", strL "uh,", strL "well,"]

def guardStarts3 : List PyStr :=
  [strL "end (of stick,", strL "end (of rope,", strL "end (of handle,"]

def guardStarts4 : List PyStr :=
  [strL "have a tattoo", strL "be positively charged", strL "be negatively charged"]

/-- `is_guard_case`. -/
def isGuardCase (text : PyStr) : Bool :=
  let lower := pyLower text
  if guardStarts.any (fun p => startsWithL p lower) then true
  else if startsWithL (strL "sink for ") lower then true
  else if guardStarts2.any (fun p => startsWithL p lower) then true
  else if guardStarts3.any (fun p => startsWithL p lower) then true
  else if guardStarts4.any (fun p => startsWithL p lower) then true
  else false

def dedupPairs : List (PyStr × PyStr) :=
  [(strL "be cooperative", strL "cooperate"), (strL "die", strL "dice")]

def dedupSkipStarts : List PyStr :=
  [strL "be ", strL "in ", strL "a ", strL "an ", strL "the ",
   strL "under", strL "area ", strL "dis"]

/-- `should_dedup`. -/
def shouldDedup (parts : List PyStr) (is_be_verb : Bool) : Bool :=
  if parts.length ≠ 2 then false
  else
    let p0 := pyStrip (pyLower parts.headI)
    let p1 := pyStrip (pyLower parts.getLastI)
    if dedupPairs.any (fun pair =>
        startsWithL pair.1 p0 || startsWithL pair.2 p0) then true
    else if is_be_verb ∨ startsWithL (strL "be ") p0 then
      7 ≤ p0.length ∧ 7 ≤ p1.length ∧ p0.take 7 = p1.take 7
    else if dedupSkipStarts.any (fun sp => startsWithL sp p0) then false
    else 3 ≤ p0.length ∧ 3 ≤ p1.length ∧ p0.take 3 = p1.take 3

/-- Python `str.rstrip()`. -/
def pyRStrip (s : PyStr) : PyStr := (s.reverse.dropWhile pyIsSpace).reverse

/-- `text.rstrip().endswith(', etc.') or text.rstrip().endswith(' etc.')`
(the `etc_suffix` computation of `parse_definition`). -/
def etcSuffixOf (text : PyStr) : Bool :=
  endsWithL (strL ", etc.") (pyRStrip text) || endsWithL (strL " etc.") (pyRStrip text)

/-- The sentence test of `parse_definition`: ends in sentence punctuation
and has no comma or semicolon. -/
def sentencePunctCond (text : PyStr) : Bool :=
  (endsWithL (strL ".") text || endsWithL (strL "!") text ||
    endsWithL (strL "?") text) && !(',' ∈ text ∨ ';' ∈ text)

/-- The bare-cross-reference test of `parse_definition`. -/
def refTokenCond (text : PyStr) : Bool :=
  startsWithL (strL "\x7b") text && endsWithL (strL "\x7d") text

/-- The semicolon/comma splitting stage of `parse_definition`
(its `raw_parts` value). -/
def rawSegments (text : PyStr) : List PyStr :=
  let semicolon_parts := splitOnDelimiters text [';']
  semicolon_parts.flatMap (fun sp =>
    let comma_parts := splitOnDelimiters sp [',']
    if comma_parts.length ≤ 1 then [sp]
    else if looksLikeItemList comma_parts then [sp]
    else if 1 < semicolon_parts.length then [sp]
    else comma_parts)

/-- `parse_definition`. -/
def parseDefinition (text0 : PyStr) (pos_subtype : Option PyStr) : ParsedDefinition :=
  if pyStrip text0 = [] then { parts := [], raw_text := text0 }
  else
    let text := pyStrip text0
    let is_be_verb := pos_subtype = some (strL "is")
    let etc_suffix := etcSuffixOf text
    if isGuardCase text then
      { parts := [{ text := text }], raw_text := text, no_permute := true,
        etc_suffix := etc_suffix }
    else if sentencePunctCond text then
      { parts := [{ text := text }], raw_text := text }
    else if refTokenCond text then
      { parts := [{ text := text }], raw_text := text }
    else
      let raw_parts := rawSegments text
      if raw_parts.length = 0 then { parts := [], raw_text := text }
      else if raw_parts.length = 1 then
        { parts := [{ text := raw_parts.headI }], raw_text := text }
      else
        let last_part := raw_parts.getLastI
        let ep := extractTrailingParenthetical last_part
        let global_paren : Option PyStr :=
          match ep.2 with
          | some pc =>
            if pc ≠ [] ∧ isGlobalParenthetical raw_parts pc then some pc else none
          | none => none
        let raw_parts :=
          if global_paren.isSome then raw_parts.dropLast ++ [ep.1] else raw_parts
        let parts := (raw_parts.filter (fun p => pyStrip p ≠ [])).map
          (fun p => ({ text := p } : DefinitionPart))
        let parts := parts.map (fun p =>
          if isSubstr (strL "travel on a mission") (pyLower p.text) then
            { p with sort_keyword := some (strL "mission") }
          else p)
        { parts := parts, global_parenthetical := global_paren, raw_text := text,
          etc_suffix := etc_suffix,
          dedup := shouldDedup (parts.map (·.text)) is_be_verb }

/-- The loop of `generate_ek_entries` over a multi-part definition:
`i` indexes the current part, `seen` the sort keys already emitted. -/
def ekLoop (parts : List DefinitionPart) (gp : Option PyStr) (ibv : Bool) :
    List (Nat × DefinitionPart) → List PyStr → List (PyStr × PyStr)
  | [], _ => []
  | (i, part) :: rest, seen =>
    let sort_key := getSortKey part ibv
    if sort_key ∈ seen then ekLoop parts gp ibv rest seen
    else
      let other_parts := ((parts.enum.filter (fun q => q.1 ≠ i)).map (·.2.text))
      let display0 := joinWith (strL ", ") (part.text :: other_parts)
      let display :=
        match gp with
        | some g => display0 ++ strL " (" ++ g ++ strL ")"
        | none => display0
      (sort_key, display) :: ekLoop parts gp ibv rest (sort_key :: seen)

/-- `generate_ek_entries` (the `definition_parser.py` version, taking a
`ParsedDefinition`). -/
def generateEkEntries (parsed : ParsedDefinition) (is_be_verb : Bool) :
    List (PyStr × PyStr) :=
  match parsed.parts with
  | [] => []
  | [part] => [(getSortKey part is_be_verb, parsed.raw_text)]
  | _ =>
    ekLoop parsed.parts parsed.global_parenthetical is_be_verb
      parsed.parts.enum []

example :
    parseDefinition (strL "flap, flutter, wave") none =
      { parts := [{ text := strL "flap" }, { text := strL "flutter" },
          { text := strL "wave" }],
        raw_text := strL "flap, flutter, wave" } := by decide

example :
    generateEkEntries (parseDefinition (strL "flap, flutter, wave") none) false =
      [(strL "flap", strL "flap, flutter, wave"),
       (strL "flutter", strL "flutter, flap, wave"),
       (strL "wave", strL "wave, flap, flutter")] := by decide

/-! ## book/dictionary.py : fix_xifan

`fix_xifan` is a chain of eight `re.sub` passes; each pass is translated
into a character-list scan with the same leftmost, non-overlapping match
semantics. -/

def subI (s : PyStr) : PyStr := s.map (fun c => if c = 'i' then 'I' else c)

def subD (s : PyStr) : PyStr := s.map (fun c => if c = 'd' then 'D' else c)

def subS (s : PyStr) : PyStr := s.map (fun c => if c = 's' then 'S' else c)

/-- The scan of `re.sub(r"([^cgl]|[^t]l|^)h", r"\1H", q)` at positions
after the start of the string. -/
def subHGo : PyStr → PyStr
  | a :: 'h' :: rest =>
    if a = 'c' ∨ a = 'g' ∨ a = 'l' then a :: subHGo ('h' :: rest)
    else a :: 'H' :: subHGo rest
  | a :: 'l' :: 'h' :: rest =>
    if a = 't' then a :: subHGo ('l' :: 'h' :: rest)
    else a :: 'l' :: 'H' :: subHGo rest
  | a :: rest => a :: subHGo rest
  | [] => []

/-- `re.sub(r"([^cgl]|[^t]l|^)h", r"\1H", q)`: the `^` alternative can
only fire at position 0, and the two-character alternatives are tried
first there. -/
def fixH : PyStr → PyStr
  | 'h' :: 'h' :: rest => 'h' :: 'H' :: subHGo rest
  | 'h' :: 'l' :: 'h' :: rest => 'h' :: 'l' :: 'H' :: subHGo rest
  | 'h' :: rest => 'H' :: subHGo rest
  | s => subHGo s

def subX (s : PyStr) : PyStr :=
  s.flatMap (fun c => if c = 'x' then strL "tlh" else [c])

def subF (s : PyStr) : PyStr :=
  s.flatMap (fun c => if c = 'f' then strL "ng" else [c])

/-- `re.sub(r"c(?!h)", "ch", q)`. -/
def subC : PyStr → PyStr
  | 'c' :: 'h' :: rest => 'c' :: 'h' :: subC rest
  | 'c' :: rest => 'c' :: 'h' :: subC rest
  | a :: rest => a :: subC rest
  | [] => []

/-- `re.sub(r"(?<!n)g(?!h)", "gh", q)`; the first argument is the
previous character of the original string (for the lookbehind). -/
def subG : Option Char → PyStr → PyStr
  | prev, 'g' :: rest =>
    if prev = some 'n' ∨ rest.head? = some 'h' then 'g' :: subG (some 'g') rest
    else 'g' :: 'h' :: subG (some 'g') rest
  | _, a :: rest => a :: subG (some a) rest
  | _, [] => []

/-- `fix_xifan`. -/
def fixXifan (q : PyStr) : PyStr :=
  subG none (subC (subF (subX (fixH (subS (subD (subI q)))))))

/-! ## book/dictionary.py : data model -/

/-- The fields of `yajwiz.BoqwizEntry` that `dictionary.py` uses.
Locale-keyed dicts are association lists; `Optional[str]` fields are
`Option PyStr` (with `none`/empty both falsy, as in Python). -/
structure Entry where
  id : PyStr
  name : PyStr
  simple_pos : PyStr
  tags : List PyStr := []
  definition : List (PyStr × PyStr) := []
  notes : List (PyStr × PyStr) := []
  examples : List (PyStr × PyStr) := []
  search_tags : List (PyStr × List PyStr) := []
  components : Option PyStr := none
  synonyms : Option PyStr := none
  antonyms : Option PyStr := none
  see_also : Option PyStr := none
  source : Option PyStr := none
  hidden_notes : Option PyStr := none
deriving DecidableEq, Repr

/-- Association-list lookup: Python `d.get(k)`. -/
def aGet {α : Type} (d : List (PyStr × α)) (k : PyStr) : Option α :=
  (d.find? (fun p => p.1 = k)).map (·.2)

/-- Python `d.get(k, default)`. -/
def dGetD (d : List (PyStr × PyStr)) (k : PyStr) (dflt : PyStr) : PyStr :=
  (aGet d k).getD dflt

/-- Python truthiness of an `Optional[str]`. -/
def pyTruthyS (o : Option PyStr) : Bool := o.getD [] ≠ []

/-- The external collaborators of the query/render core: the entry store
(`dictionary.entries`, in insertion order), the current language, the
locale list and locale string table, the `yajwiz` morphological analyzer
(each analysis is its `PARTS` list), the `yajwiz` splitters, and the
`re.search` regex engine (which may raise on a bad pattern; the
case-insensitive variant is separate). -/
structure Ctx where
  entries : List (PyStr × Entry)
  lang : PyStr
  locales : List PyStr := []
  localeStrings : PyStr → PyStr
  analyze : PyStr → List (List PyStr) := fun _ => []
  splitLetters : PyStr → List PyStr := fun _ => []
  splitSyllables : PyStr → List PyStr := fun _ => []
  splitMorphemes : PyStr → List (List PyStr) := fun _ => []
  reSearch : PyStr → PyStr → Except Unit Bool := fun _ _ => .ok false
  reSearchCI : PyStr → PyStr → Except Unit Bool := fun _ _ => .ok false

/-! ## book/dictionary.py : links and the derived index -/

/-- `parse_link`: returns (link_text, link_type, tags, parts1, parts2). -/
def parseLink (link : PyStr) :
    PyStr × PyStr × List PyStr × List PyStr × List PyStr :=
  let parts1 := pySplitAtAt link
  let parts2 := pySplitChar ':' parts1.headI
  let link_text := parts2.headI
  let link_type := parts2.getD 1 []
  let tags := if 2 < parts2.length then pySplitChar ',' (parts2.getD 2 []) else []
  (link_text, link_type, tags, parts1, parts2)

/-- `re.fullmatch(r"\d+h?", tag)`. -/
def isHomTag (t : PyStr) : Bool :=
  t.takeWhile isDigitChar ≠ [] ∧
    (t.dropWhile isDigitChar = [] ∨ t.dropWhile isDigitChar = ['h'])

/-- `get_id`. -/
def getId (link_text link_type : PyStr) (tags : List PyStr) : PyStr :=
  let homonyms := (tags.filter isHomTag).map stripHChar
  link_text ++ strL ":" ++ joinWith (strL ":") (link_type :: homonyms)

/-- The `while "{" in text` loop of `get_links`; raises (like
`text.index("}")`) when an opening brace has no closing brace. -/
def getLinksF : Nat → PyStr → Except Unit (List PyStr)
  | 0, _ => .ok []
  | f + 1, text =>
    if '\x7b' ∈ text then
      let rest := (text.dropWhile (· ≠ '\x7b')).drop 1
      if '\x7d' ∈ rest then
        let link := rest.takeWhile (· ≠ '\x7d')
        let pl := parseLink link
        do
          let ids ← getLinksF f ((rest.dropWhile (· ≠ '\x7d')).drop 1)
          .ok (getId pl.1 pl.2.1 pl.2.2.1 :: ids)
      else .error ()
    else .ok []

/-- `get_links`. -/
def getLinks (text : PyStr) : Except Unit (List PyStr) :=
  getLinksF text.length text

/-- The derived index (`derived_index`): a `defaultdict(list)` modelled as
an association list in key-insertion order. -/
abbrev DIndex := List (PyStr × List Entry)

def dIndexLookup (idx : DIndex) (k : PyStr) : Option (List Entry) :=
  (idx.find? (fun p => p.1 = k)).map (·.2)

/-- `derived_index[k].append(v)` on a `defaultdict(list)`. -/
def dAppend (idx : DIndex) (k : PyStr) (v : Entry) : DIndex :=
  if (idx.find? (fun p => p.1 = k)).isSome then
    idx.map (fun p => if p.1 = k then (p.1, p.2 ++ [v]) else p)
  else idx ++ [(k, [v])]

/-- A bare `derived_index[k]` read on a `defaultdict(list)`: inserts an
empty list when the key is missing. -/
def dAccess (idx : DIndex) (k : PyStr) : List Entry × DIndex :=
  match dIndexLookup idx k with
  | some l => (l, idx)
  | none => ([], idx ++ [(k, [])])

/-- The per-component update of `make_derived_index`. -/
def addComponent (entry : Entry) (idx : DIndex) (c : PyStr) : DIndex :=
  let idx := dAppend idx c entry
  if c.count ':' = 1 then dAppend idx (c ++ strL ":1") entry else idx

/-- The body of `make_derived_index` for one entry. -/
def makeDerivedIndexEntry (idx : DIndex) (entry : Entry) : Except Unit DIndex :=
  if strL "sen" ∈ entry.tags then .ok idx
  else
    match getLinks (entry.components.getD []) with
    | .error err => .error err
    | .ok links => .ok (links.foldl (addComponent entry) idx)

def makeDerivedIndexGo : DIndex → List (PyStr × Entry) → Except Unit DIndex
  | idx, [] => .ok idx
  | idx, p :: rest =>
    match makeDerivedIndexEntry idx p.2 with
    | .error err => .error err
    | .ok idx2 => makeDerivedIndexGo idx2 rest

/-- `make_derived_index` over `dictionary.entries.values()`. -/
def makeDerivedIndex (entries : List (PyStr × Entry)) : Except Unit DIndex :=
  makeDerivedIndexGo [] entries

/-- `DictionaryQuery.get_unless_translated`; `d["en"]` in the
AUTOTRANSLATED branch is a raising lookup. -/
def getUnlessTranslated (lang : PyStr) (d : List (PyStr × PyStr)) :
    Except Unit PyStr :=
  match aGet d lang with
  | none => .ok (dGetD d (strL "en") [])
  | some v =>
    if v = [] then .ok (dGetD d (strL "en") [])
    else if isSubstr (strL "AUTOTRANSLATED") v ∨ v = strL "TRANSLATE" then
      match aGet d (strL "en") with
      | some e => .ok e
      | none => .error ()
    else .ok v

/-- `get_wiki_name`. -/
def getWikiName (ctx : Ctx) (name : PyStr) : PyStr :=
  let name := name.filter (· ≠ ' ')
  pyCapitalize ((ctx.splitLetters name).flatMap (fun letter =>
    if letter = strL "q" then strL "k"
    else if letter = strL "\x27" then strL "-"
    else letter))

def digitS (i : Nat) : PyStr := [Nat.digitChar i]

/-- The homophone loop of `LinkRenderer.render_link` (`for i in
range(1, 10)` with `break`): returns (hom, hom_pos). -/
def homLoopGo (tags : List PyStr) : List Nat → PyStr × PyStr
  | [] => ([], [])
  | i :: rest =>
    if digitS i ∈ tags then
      (strL "<sup>" ++ digitS i ++ strL "</sup>", strL "+pos:" ++ digitS i)
    else if (digitS i ++ strL "h") ∈ tags then ([], strL "+pos:" ++ digitS i)
    else homLoopGo tags rest

def homLoop (tags : List PyStr) : PyStr × PyStr :=
  homLoopGo tags [1, 2, 3, 4, 5, 6, 7, 8, 9]

/-- `LinkRenderer.render_link` (the html variant). -/
def renderLink (ctx : Ctx) (link_text link_type : PyStr) (tags : List PyStr) :
    Except Unit PyStr := do
  let hyp :=
    if strL "hyp" ∈ tags then strL "<sup>?</sup>"
    else if strL "extcan" ∈ tags then strL "*"
    else []
  let hp := homLoop tags
  let pos :=
    if link_type ≠ [] ∧ link_type ≠ strL "sen" then strL "+pos:" ++ link_type
    else []
  let style :=
    if '-' ∈ link_text then strL "affix"
    else if link_type ≠ [] then link_type
    else strL "sen"
  let word_id := getId link_text link_type tags
  let defn ←
    match aGet ctx.entries word_id with
    | some entry => do
      let d ← getUnlessTranslated ctx.lang entry.definition
      pure (strL " title=\"" ++ d ++ strL "\"")
    | none => pure []
  .ok (strL "<a href=\"?q=tlh:&quot;^" ++ pyReplaceChar ' ' (strL "+") link_text ++
    strL "$&quot;" ++ pos ++ hp.2 ++ strL "\" class=\"pos-" ++ style ++ strL "\"" ++
    defn ++ strL ">" ++ hyp ++ strL "<span okrand>" ++ link_text ++
    strL "</span>" ++ hp.1 ++ strL "</a>")

/-- `LinkRenderer.fix_link` (the html variant); the `url` branch indexes
`parts2[2]`, which raises when absent. -/
def fixLink (ctx : Ctx) (link : PyStr) : Except Unit PyStr :=
  let pl := parseLink link
  let link_text := pl.1
  let link_type := pl.2.1
  let tags := pl.2.2.1
  let parts1 := pl.2.2.2.1
  let parts2 := pl.2.2.2.2
  if strL "nolink" ∈ tags then
    let style :=
      if '-' ∈ link_text then strL "affix"
      else if link_type ≠ [] then link_type
      else strL "sen"
    .ok (strL "<b class=\"pos-" ++ style ++ strL "\" okrand>" ++ link_text ++
      strL "</b>")
  else if link_type = strL "src" then
    .ok (strL "<i>" ++ link_text ++ strL "</i>")
  else if link_type = strL "url" then
    match parts2.get? 2 with
    | some addr =>
      .ok (strL "<a target=_blank href=\"" ++ addr ++ strL "\">" ++ link_text ++
        strL "</a>")
    | none => .error ()
  else if parts1.length = 2 then
    let style := if link_type ≠ [] then link_type else strL "sen"
    .ok (strL "<a href=\"?q=" ++ pyReplaceChar ' ' (strL "+") link_text ++
      strL "\" class=\"pos-" ++ style ++ strL "\" okrand>" ++ link_text ++
      strL "</a>")
  else renderLink ctx link_text link_type tags

/-- The `while "{" in text` loop of `DictionaryQuery.fix_links`;
`text.index("}")` raises when an opening brace has no closing brace. -/
def fixLinksF (ctx : Ctx) : Nat → PyStr → Except Unit PyStr
  | 0, text => .ok text
  | f + 1, text =>
    if '\x7b' ∈ text then
      let ans1 := text.takeWhile (· ≠ '\x7b')
      let rest := (text.dropWhile (· ≠ '\x7b')).drop 1
      if '\x7d' ∈ rest then do
        let fixed ← fixLink ctx (rest.takeWhile (· ≠ '\x7d'))
        let tl ← fixLinksF ctx f ((rest.dropWhile (· ≠ '\x7d')).drop 1)
        .ok (ans1 ++ fixed ++ tl)
      else .error ()
    else .ok text

/-- `DictionaryQuery.fix_links`. -/
def fixLinks (ctx : Ctx) (text : PyStr) : Except Unit PyStr := do
  let r ← fixLinksF ctx text.length text
  .ok (pyReplaceChar '\n' (strL "<br>") r)

/-! ## book/dictionary.py : render_entry -/

/-- The dict built by `render_entry` when `include_derivs` is false (the
`derived` key is then never present).  `Option` fields model keys that may
be absent. -/
structure RenderedBase where
  name : PyStr
  url_name : PyStr
  wiki_name : PyStr
  graphemes : List PyStr
  syllables : List PyStr
  morphemes : List (List PyStr)
  pos : PyStr
  simple_pos : PyStr
  boqwi_tags : List PyStr
  tags : List PyStr
  rendered_link : PyStr
  homonym : Option Nat := none
  definition : PyStr
  english : Option PyStr := none
  notes : Option PyStr := none
  examples : Option PyStr := none
  components : Option PyStr := none
  inflections : Option PyStr := none
  synonyms : Option PyStr := none
  antonyms : Option PyStr := none
  see_also : Option PyStr := none
  source : Option PyStr := none
  hidden_notes : Option PyStr := none
deriving DecidableEq, Repr

/-- The dict built by `render_entry`: the base fields plus the optional
`derived` list, whose element views are rendered with
`include_derivs=False` and therefore never have a `derived` key. -/
structure Rendered where
  base : RenderedBase
  derived : Option (List RenderedBase) := none
deriving DecidableEq, Repr

/-- The `pos` label chain of `render_entry`. -/
def posLabel (ctx : Ctx) (e : Entry) : PyStr :=
  if e.simple_pos = strL "v" then
    if strL "is" ∈ e.tags then ctx.localeStrings (strL "adjective")
    else if strL "t_c" ∈ e.tags then ctx.localeStrings (strL "transitive verb")
    else if strL "t" ∈ e.tags then ctx.localeStrings (strL "possibly transitive verb")
    else if strL "i_c" ∈ e.tags then ctx.localeStrings (strL "intransitive verb")
    else if strL "i" ∈ e.tags then ctx.localeStrings (strL "possibly intransitive verb")
    else if strL "pref" ∈ e.tags then ctx.localeStrings (strL "verb prefix")
    else if strL "suff" ∈ e.tags then ctx.localeStrings (strL "verb suffix")
    else ctx.localeStrings (strL "verb")
  else if e.simple_pos = strL "n" then
    if strL "suff" ∈ e.tags then ctx.localeStrings (strL "noun suffix")
    else ctx.localeStrings (strL "noun")
  else if e.simple_pos = strL "ques" then ctx.localeStrings (strL "question word")
  else if e.simple_pos = strL "adv" then ctx.localeStrings (strL "adverb")
  else if e.simple_pos = strL "conj" then ctx.localeStrings (strL "conjunction")
  else if e.simple_pos = strL "excl" then ctx.localeStrings (strL "exclamation")
  else if e.simple_pos = strL "sen" then ctx.localeStrings (strL "sentence")
  else ctx.localeStrings (strL "unknown")

/-- The human tag labels of `render_entry`. -/
def tagLabels (ctx : Ctx) (e : Entry) : List PyStr :=
  (if strL "slang" ∈ e.tags then [ctx.localeStrings (strL "slang")] else []) ++
  (if strL "reg" ∈ e.tags then [ctx.localeStrings (strL "regional")] else []) ++
  (if strL "archaic" ∈ e.tags then [ctx.localeStrings (strL "archaic")] else []) ++
  (if strL "hyp" ∈ e.tags then [ctx.localeStrings (strL "hypothetical")] else []) ++
  (if strL "extcan" ∈ e.tags then [ctx.localeStrings (strL "extracanonical")] else [])

/-- `for i in range(1, 10): if str(i) in entry.tags: ans["homonym"] = i`
(no break: the last match wins). -/
def homonymField (e : Entry) : Option Nat :=
  (List.range' 1 9).foldl
    (fun acc i => if digitS i ∈ e.tags then some i else acc) none

/-- `if getattr(entry, field): ans[field] = self.fix_links(...)`. -/
def optFixLinks (ctx : Ctx) (o : Option PyStr) : Except Unit (Option PyStr) :=
  if pyTruthyS o then do
    let r ← fixLinks ctx (o.getD [])
    pure (some r)
  else pure none

/-- The noun-inflection block of `render_entry`: returns the
(`inflections`, `components`) pair after the possible `del
ans["components"]`.  The `fix_links(entry.components)` it recomputes is
the same (deterministic) value already computed for the `components` key,
passed in as `components0`. -/
def inflectionsBlock (ctx : Ctx) (e : Entry) (components0 : Option PyStr) :
    Option PyStr × Option PyStr :=
  if e.simple_pos = strL "n" then
    if strL "inhps" ∈ e.tags ∧ pyTruthyS e.components then
      (some (ctx.localeStrings (strL "plural") ++ strL ": " ++ components0.getD []),
        none)
    else if strL "inhpl" ∈ e.tags ∧ pyTruthyS e.components then
      (some (ctx.localeStrings (strL "singular") ++ strL ": " ++ components0.getD []),
        none)
    else if strL "suff" ∉ e.tags ∧ strL "inhpl" ∉ e.tags then
      if strL "body" ∈ e.tags then (some (strL "-Du\x27"), components0)
      else if strL "being" ∈ e.tags then
        (some (strL "-pu\x27, -mey"), components0)
      else (none, components0)
    else (none, components0)
  else (none, components0)

/-- `render_entry` without the `derived` block (the
`include_derivs=False` rendering).  Monadic steps appear in the source's
evaluation order, so the first raising field is the one that raises. -/
def renderEntryCore (ctx : Ctx) (e : Entry) : Except Unit RenderedBase := do
  let rendered_link ← renderLink ctx e.name e.simple_pos e.tags
  let defText ← getUnlessTranslated ctx.lang e.definition
  let definition ← fixLinks ctx defText
  let english ←
    if ctx.lang ≠ strL "en" then
      match aGet e.definition (strL "en") with
      | some v => do
        let r ← fixLinks ctx v
        pure (some r)
      | none => .error ()
    else pure none
  let notes ←
    if e.notes ≠ [] then do
      let t ← getUnlessTranslated ctx.lang e.notes
      let r ← fixLinks ctx t
      pure (some r)
    else pure none
  let examples ←
    if e.examples ≠ [] then do
      let t ← getUnlessTranslated ctx.lang e.examples
      let r ← fixLinks ctx t
      pure (some r)
    else pure none
  let components0 ← optFixLinks ctx e.components
  let infl := inflectionsBlock ctx e components0
  let synonyms ← optFixLinks ctx e.synonyms
  let antonyms ← optFixLinks ctx e.antonyms
  let see_also ← optFixLinks ctx e.see_also
  let source ← optFixLinks ctx e.source
  let hidden_notes ← optFixLinks ctx e.hidden_notes
  pure
    { name := e.name
      url_name := pyReplaceChar ' ' (strL "+") e.name
      wiki_name := getWikiName ctx e.name
      graphemes := ctx.splitLetters e.name
      syllables := ctx.splitSyllables e.name
      morphemes := ctx.splitMorphemes e.name
      pos := posLabel ctx e
      simple_pos :=
        if startsWithL (strL "-") e.name ∨ endsWithL (strL "-") e.name ∨
            e.name = strL "0" then strL "affix"
        else e.simple_pos
      boqwi_tags := e.tags
      tags := tagLabels ctx e
      rendered_link := rendered_link
      homonym := homonymField e
      definition := definition
      english := english
      notes := notes
      examples := examples
      components := infl.2
      inflections := infl.1
      synonyms := synonyms
      antonyms := antonyms
      see_also := see_also
      source := source
      hidden_notes := hidden_notes }

/-- The `for entry2 in derived_index[entry.id]` loop of `render_entry`:
render each derived entry in order, the first exception propagating. -/
def renderDerivedList (ctx : Ctx) : List Entry → Except Unit (List RenderedBase)
  | [] => .ok []
  | x :: xs =>
    match renderEntryCore ctx x with
    | .error err => .error err
    | .ok y =>
      match renderDerivedList ctx xs with
      | .error err => .error err
      | .ok ys => .ok (y :: ys)

/-- `render_entry`, threading the derived-index state: when
`include_derivs` is true, `derived_index[entry.id]` is a `defaultdict`
read (which inserts an empty list for a missing key), and each derived
entry is rendered with `include_derivs=False`. -/
def renderEntry (ctx : Ctx) (idx : DIndex) (e : Entry) (include_derivs : Bool) :
    Except Unit (Rendered × DIndex) :=
  match renderEntryCore ctx e with
  | .error err => .error err
  | .ok base =>
    if include_derivs then
      match renderDerivedList ctx (dAccess idx e.id).1 with
      | .error err => .error err
      | .ok views =>
        .ok ({ base := base, derived := if views = [] then none else some views },
          (dAccess idx e.id).2)
    else .ok ({ base := base, derived := none }, idx)

/-! ## book/dictionary.py : the query engine -/

/-- A query-AST node: a predicate over an entry that may raise. -/
abbrev Pred := Entry → Except Unit Bool

def truePred : Pred := fun _ => .ok true

/-- `create_or` (Python `or`: short-circuit, left operand's exception
propagates). -/
def orPred (a b : Pred) : Pred := fun e => do
  let x ← a e
  if x then pure true else b e

/-- `create_and`. -/
def andPred (a b : Pred) : Pred := fun e => do
  let x ← a e
  if x then b e else pure false

def notPred (a : Pred) : Pred := fun e => do
  let x ← a e
  pure (!x)

/-- `any_word_starts_with`. -/
def anyWordStartsWith (word : PyStr) (words : List PyStr) : Bool :=
  words.any (fun p => startsWithL (pyLower word) (pyLower p))

/-- The base `QUERY_OPERATORS` table. -/
def baseOps (ctx : Ctx) : List (PyStr × (Entry → PyStr → Except Unit Bool)) :=
  [(strL "tlh", fun e arg => ctx.reSearch (fixXifan arg) e.name),
   (strL "notes", fun e arg => ctx.reSearchCI arg (dGetD e.notes (strL "en") [])),
   (strL "ex", fun e arg => ctx.reSearch arg (dGetD e.examples (strL "en") [])),
   (strL "pos", fun e arg =>
     .ok ((pySplitChar ',' arg).all (fun t =>
       t = e.simple_pos ∨ t ∈ e.tags))),
   (strL "antonym", fun e arg => ctx.reSearch (fixXifan arg) (e.antonyms.getD [])),
   (strL "synonym", fun e arg => ctx.reSearch (fixXifan arg) (e.synonyms.getD [])),
   (strL "components", fun e arg =>
     ctx.reSearch (fixXifan arg) (e.components.getD [])),
   (strL "see", fun e arg => ctx.reSearch (fixXifan arg) (e.see_also.getD []))]

/-- The three operators `add_operators(language)` registers; the
definition lookup `entry.definition[language]` raises when absent. -/
def localeOps (ctx : Ctx) (language : PyStr) :
    List (PyStr × (Entry → PyStr → Except Unit Bool)) :=
  [(language, fun e arg =>
     match aGet e.definition language with
     | some v => do
       let r ← ctx.reSearch arg v
       pure (r || decide (arg ∈ (aGet e.search_tags language).getD []))
     | none => .error ()),
   (language ++ strL "notes", fun e arg =>
     ctx.reSearch arg (dGetD e.notes language [])),
   (language ++ strL "ex", fun e arg =>
     ctx.reSearch arg (dGetD e.examples language []))]

/-- The `QUERY_OPERATORS` dict after `init_operators()`: the per-locale
entries are assigned after the base table, so a locale key overwrites a
base key of the same name (and a later locale overwrites an earlier). -/
def queryOperators (ctx : Ctx) (op : PyStr) :
    Option (Entry → PyStr → Except Unit Bool) :=
  match (ctx.locales.reverse.flatMap (localeOps ctx)).find? (fun p => p.1 = op) with
  | some p => some p.2
  | none => ((baseOps ctx).find? (fun p => p.1 = op)).map (·.2)

/-- The bare-word term of `parse_term`. -/
def bareWordPred (ctx : Ctx) (part : PyStr) (e : Entry) : Bool :=
  if isSubstr (fixXifan part) e.name then true
  else if anyWordStartsWith part ((aGet e.search_tags ctx.lang).getD []) then true
  else if anyWordStartsWith part
      (splitWS (pyLower (dGetD e.definition ctx.lang []))) then true
  else false

/-!
The recursive-descent parser (`parse_or`/`parse_and`/`parse_term`), with
the Python `while` loops as `parseOrLoop`/`parseAndLoop`.  The token list
is passed and the unconsumed rest returned (Python mutates it in-place).
Fuel makes the mutual recursion structural; each reachable call site
consumes a token, so any fuel of at least twice the token count plus a
constant behaves as the unbounded original.
-/
mutual

def parseTerm (ctx : Ctx) : Nat → List PyStr → Pred × List PyStr
  | 0, parts => (truePred, parts)
  | fuel + 1, parts =>
    match parts with
    | [] => (truePred, [])
    | part :: rest =>
      if part = strL "(" then
        let pr := parseOr ctx fuel rest
        (pr.1, pr.2.tail)
      else if part = strL "NOT" ∨ part = strL "EI" then
        let pr := parseTerm ctx fuel rest
        (notPred pr.1, pr.2)
      else if ':' ∈ part then
        let op := part.takeWhile (· ≠ ':')
        let arg := (part.dropWhile (· ≠ ':')).drop 1
        match queryOperators ctx op with
        | some f => (fun e => f e arg, rest)
        | none => (fun _ => .ok false, rest)
      else (fun e => .ok (bareWordPred ctx part e), rest)

def parseAnd (ctx : Ctx) : Nat → List PyStr → Pred × List PyStr
  | 0, parts => (truePred, parts)
  | fuel + 1, parts =>
    let pr := parseTerm ctx fuel parts
    parseAndLoop ctx fuel pr.1 pr.2

def parseAndLoop (ctx : Ctx) : Nat → Pred → List PyStr → Pred × List PyStr
  | 0, a, parts => (a, parts)
  | fuel + 1, a, parts =>
    match parts with
    | [] => (a, [])
    | p :: rest =>
      if p = strL ")" ∨ p = strL "OR" ∨ p = strL "TAI" then (a, p :: rest)
      else
        let parts2 := if p = strL "AND" ∨ p = strL "JA" then rest else p :: rest
        let pr := parseTerm ctx fuel parts2
        parseAndLoop ctx fuel (andPred a pr.1) pr.2

def parseOr (ctx : Ctx) : Nat → List PyStr → Pred × List PyStr
  | 0, parts => (truePred, parts)
  | fuel + 1, parts =>
    let pr := parseAnd ctx fuel parts
    parseOrLoop ctx fuel pr.1 pr.2

def parseOrLoop (ctx : Ctx) : Nat → Pred → List PyStr → Pred × List PyStr
  | 0, a, parts => (a, parts)
  | fuel + 1, a, parts =>
    match parts with
    | [] => (a, [])
    | p :: rest =>
      if p = strL "OR" ∨ p = strL "TAI" then
        let pr := parseAnd ctx fuel rest
        parseOrLoop ctx fuel (orPred a pr.1) pr.2
      else (a, p :: rest)

end

/-- The character scan at the top of `dsl_query`: `acc` holds the
finished tokens, `cur` the token being built (Python's `parts[-1]`). -/
def dslTokenizeAux : PyStr → Bool → List PyStr → PyStr → List PyStr
  | [], _, acc, cur => acc ++ [cur]
  | c :: rest, quote, acc, cur =>
    if ¬ quote ∧ c = ' ' then dslTokenizeAux rest quote (acc ++ [cur]) []
    else if ¬ quote ∧ (c = '(' ∨ c = ')') then
      dslTokenizeAux rest quote (acc ++ [cur, [c]]) []
    else if c = '"' then dslTokenizeAux rest (!quote) acc cur
    else dslTokenizeAux rest quote acc (cur ++ [c])

def dslTokenize (q : PyStr) : List PyStr := dslTokenizeAux q false [] []

/-- The entry loop of `dsl_query`: the `try/except` around
`query_function(entry)` turns a raising predicate into `False` for that
entry only; `render_entry` is outside the `try` block. -/
def dslRun (ctx : Ctx) (f : Pred) (included : List PyStr) :
    DIndex → List (PyStr × Entry) → Except Unit (List Rendered × DIndex)
  | idx, [] => .ok ([], idx)
  | idx, (entry_id, e) :: rest =>
    let b := match f e with | .ok v => v | .error _ => false
    if !included.contains entry_id && b then
      match renderEntry ctx idx e true with
      | .error err => .error err
      | .ok ri =>
        match dslRun ctx f included ri.2 rest with
        | .error err => .error err
        | .ok rs => .ok (ri.1 :: rs.1, rs.2)
    else dslRun ctx f included idx rest

def parserFuel (parts : List PyStr) : Nat := 2 * parts.length + 4

/-- `DictionaryQuery.dsl_query`. -/
def dslQuery (ctx : Ctx) (idx : DIndex) (query : PyStr) (included : List PyStr) :
    Except Unit (List Rendered × DIndex) :=
  let parts := dslTokenize query
  dslRun ctx (parseOr ctx (parserFuel parts) parts).1 included idx ctx.entries

/-- `part[:part.index(":")]`, raising when there is no colon. -/
def fapName (p : PyStr) : Except Unit PyStr :=
  if ':' ∈ p then .ok (p.takeWhile (· ≠ ':')) else .error ()

/-- First index of `x` (Python `list.index`; `x` is always present at the
call sites, a missing `x` would raise and here yields the length). -/
def idxOfL (x : PyStr) : List PyStr → Nat
  | [] => 0
  | y :: ys => if y = x then 0 else idxOfL x ys + 1

/-- Stable insertion sort by a natural-number key, modelling Python's
stable `list.sort(key=...)`. -/
def insByKey {α : Type} (key : α → Nat) (x : α) : List α → List α
  | [] => [x]
  | y :: ys => if key x ≤ key y then x :: y :: ys else y :: insByKey key x ys

def stableSortByKey {α : Type} (key : α → Nat) : List α → List α
  | [] => []
  | x :: xs => insByKey key x (stableSortByKey key xs)

/-- `fix_analysis_parts`. -/
def fixAnalysisParts (analyses : List (List PyStr)) : Except Unit (List PyStr) := do
  let np ← (analyses.flatMap id).foldlM
    (fun (acc : List PyStr × List PyStr) part => do
      let nm ← fapName part
      .ok (acc.1 ++ [nm],
        if part ∈ acc.2 then acc.2 else acc.2 ++ [part]))
    ([], [])
  .ok (stableSortByKey (fun p => idxOfL (p.takeWhile (· ≠ ':')) np.1) np.2)

/-- The scan of `re.sub(r"\s{2,}", " ", query)`: a maximal whitespace run
of length at least two becomes one space.  Fueled. -/
def collapseWSF : Nat → PyStr → PyStr
  | 0, s => s
  | _ + 1, [] => []
  | f + 1, c :: rest =>
    if pyIsSpace c && (match rest.head? with
        | some c2 => pyIsSpace c2
        | none => false) then
      ' ' :: collapseWSF f (rest.dropWhile pyIsSpace)
    else c :: collapseWSF f rest

def collapseWS (s : PyStr) : PyStr := collapseWSF s.length s

/-- The first rendering loop of `execute_query` over the analysis parts:
`included` collects the part ids already rendered;
`dictionary.entries[part]` is a raising lookup. -/
def partsRenderLoop (ctx : Ctx) :
    DIndex → List PyStr → List PyStr →
    Except Unit (List Rendered × List PyStr × DIndex)
  | idx, [], included => .ok ([], included, idx)
  | idx, part :: rest, included =>
    if part ∈ included then partsRenderLoop ctx idx rest included
    else
      match aGet ctx.entries part with
      | none => .error ()
      | some e =>
        match renderEntry ctx idx e true with
        | .error err => .error err
        | .ok ri =>
          match partsRenderLoop ctx ri.2 rest (included ++ [part]) with
          | .error err => .error err
          | .ok rs => .ok (ri.1 :: rs.1, rs.2.1, rs.2.2)

/-- The result of `execute_query`: the empty-query branch returns the
empty *string*, every other branch a list of rendered views. -/
inductive QueryResult where
  | pyString (s : PyStr)
  | pyList (l : List Rendered)
deriving DecidableEq

/-- `DictionaryQuery.execute_query`, threading the derived-index state. -/
def executeQuery (ctx : Ctx) (idx : DIndex) (query0 : PyStr) :
    Except Unit (QueryResult × DIndex) :=
  if query0 = [] then .ok (.pyString [], idx)
  else
    let q1 := query0.map (fun c =>
      if c = '’' ∨ c = '\x60' ∨ c = '‘' then '\x27' else c)
    let q2 := q1.map (fun c =>
      if c = '”' ∨ c = '“' then '"' else c)
    let query := pyStrip (collapseWS q2)
    let a1 := ctx.analyze (fixXifan query)
    match (if a1 ≠ [] then fixAnalysisParts a1 else .ok []) with
    | .error err => .error err
    | .ok parts1 =>
      match (if ¬ (':' ∈ query) then
          (let a2 := (pySplitChar ' ' query).flatMap
            (fun w => ctx.analyze (fixXifan w))
          if a2 ≠ [] then fixAnalysisParts a2 else .ok [])
        else .ok []) with
      | .error err => .error err
      | .ok parts2 =>
        match partsRenderLoop ctx idx (parts1 ++ parts2) [] with
        | .error err => .error err
        | .ok pr =>
          match dslQuery ctx pr.2.2 query pr.2.1 with
          | .error err => .error err
          | .ok dr => .ok (.pyList (pr.1 ++ dr.1), dr.2)

instance {ε α : Type} [DecidableEq ε] [DecidableEq α] : DecidableEq (Except ε α) :=
  fun a b =>
    match a, b with
    | .ok x, .ok y => if h : x = y then .isTrue (by rw [h]) else .isFalse (by simp [h])
    | .error x, .error y =>
      if h : x = y then .isTrue (by rw [h]) else .isFalse (by simp [h])
    | .ok _, .error _ => .isFalse (by simp)
    | .error _, .ok _ => .isFalse (by simp)

/-- Rendering a list of store entries in order with `include_derivs=True`,
threading the index state (the shape of the result-accumulation loops of
`dsl_query` and `execute_query`). -/
def renderSeq (ctx : Ctx) : DIndex → List (PyStr × Entry) →
    Except Unit (List Rendered × DIndex)
  | idx, [] => .ok ([], idx)
  | idx, (_, e) :: rest =>
    match renderEntry ctx idx e true with
    | .error err => .error err
    | .ok ri =>
      match renderSeq ctx ri.2 rest with
      | .error err => .error err
      | .ok rs => .ok (ri.1 :: rs.1, rs.2)

/-! ## Concrete fixtures for witnesses and counterexamples -/

/-- A store-less context. -/
def ctxZero : Ctx := { entries := [], lang := strL "en", localeStrings := fun _ => [] }

def entryRo : Entry :=
  { id := strL "ro:n", name := strL "ro", simple_pos := strL "n",
    definition := [(strL "en", strL "zz")] }

def entryTa : Entry :=
  { id := strL "ta:n", name := strL "ta", simple_pos := strL "n",
    definition := [(strL "en", strL "yy")] }

/-- A two-entry store (`ro` before `ta` in store order). -/
def ctxTwo : Ctx :=
  { entries := [(strL "ro:n", entryRo), (strL "ta:n", entryTa)],
    lang := strL "en", localeStrings := fun _ => [] }

/-- An entry whose English definition has an opening brace with no
closing brace, so `fix_links` raises on it. -/
def entryBadDef : Entry :=
  { id := strL "ta:n", name := strL "ta", simple_pos := strL "n",
    definition := [(strL "en", strL "\x7boops")] }

def ctxBad : Ctx :=
  { entries := [(strL "ta:n", entryBadDef)], lang := strL "en",
    localeStrings := fun _ => [] }

/-- An entry whose `components` reference `ta:n`. -/
def entryDa : Entry :=
  { id := strL "Da:v", name := strL "Da", simple_pos := strL "v",
    definition := [(strL "en", strL "w")],
    components := some (strL "\x7bta:n\x7d") }

/-- A sentence entry (tag `sen`) whose `components` reference `ta:n`. -/
def entrySen : Entry :=
  { id := strL "S1:sen", name := strL "S1", simple_pos := strL "sen",
    tags := [strL "sen"], definition := [(strL "en", strL "w")],
    components := some (strL "\x7bta:n\x7d") }

/-! ## Claim theorems -/

/-- Claim C5: `parse_definition("flap, flutter, wave", None)` yields
exactly three parts with `no_permute`, `dedup`, `etc_suffix` all false and
no global parenthetical, and `generate_ek_entries` yields exactly the
three rotations, in order, each keyed by the lowercased first word of its
rotated text. -/
theorem c5_three_rotations :
    parseDefinition (strL "flap, flutter, wave") none =
      { parts := [{ text := strL "flap" }, { text := strL "flutter" },
          { text := strL "wave" }],
        global_parenthetical := none,
        raw_text := strL "flap, flutter, wave",
        no_permute := false, dedup := false, etc_suffix := false } ∧
    generateEkEntries (parseDefinition (strL "flap, flutter, wave") none) false =
      [(strL "flap", strL "flap, flutter, wave"),
       (strL "flutter", strL "flutter, flap, wave"),
       (strL "wave", strL "wave, flap, flutter")] := by
  constructor <;> decide

/-- Claim C1, counterexample: `parse_definition("actor, actress", None)`
does yield `dedup = true`, but `generate_ek_entries` on that result
returns two entries, not one: the sort keys `actor` and `actress` differ,
so the skip-if-sort-key-already-emitted rule never fires. -/
theorem c1_counterexample :
    (parseDefinition (strL "actor, actress") none).dedup = true ∧
    (generateEkEntries (parseDefinition (strL "actor, actress") none)
      false).length = 2 := by
  constructor <;> decide

/-- Claim C1, amended: `parse_definition("actor, actress", None)` yields
`dedup = true`, and `generate_ek_entries` (which never reads the `dedup`
flag) yields the two entries `("actor", "actor, actress")` and
`("actress", "actress, actor")`; its skip rule only suppresses a part
whose sort key is identical to an earlier one. -/
theorem c1_dedup_flag_ignored :
    (parseDefinition (strL "actor, actress") none).dedup = true ∧
    generateEkEntries (parseDefinition (strL "actor, actress") none) false =
      [(strL "actor", strL "actor, actress"),
       (strL "actress", strL "actress, actor")] := by
  constructor <;> decide

/-- Claim C4, counterexample: `parse_definition("a, (e.g., b)", None)`
returns exactly one part together with a set `global_parenthetical`: the
promoted parenthetical was the whole final comma segment, which the
extraction empties and the part filter then drops. -/
theorem c4_counterexample :
    (parseDefinition (strL "a, (e.g., b)") none).parts.length = 1 ∧
    (parseDefinition (strL "a, (e.g., b)") none).global_parenthetical =
      some (strL "e.g., b") := by
  constructor <;> decide

/-- Claim C7, counterexample: the trimmed definition `"sink, etc."` ends
in the enumeration marker, but `parse_definition` returns it through the
single-raw-segment branch, which does not record `etc_suffix`. -/
theorem c7_counterexample :
    etcSuffixOf (pyStrip (strL "sink, etc.")) = true ∧
    (parseDefinition (strL "sink, etc.") none).etc_suffix = false := by
  constructor <;> decide

/-- Claim C8, counterexample: `execute_query("")` returns the empty
*string*, which is not a (empty) list of rendered entry views. -/
theorem c8_counterexample :
    executeQuery ctxTwo [] (strL "") = .ok (.pyString [], []) ∧
    QueryResult.pyString [] ≠ QueryResult.pyList [] := by
  exact ⟨rfl, by simp⟩

/-- Claim C8, amended: `execute_query` on the empty query string returns
the empty string (an empty, falsy result carrying no entries — but a
string, not a list) and leaves the derived index unchanged. -/
theorem c8_empty_query (ctx : Ctx) (idx : DIndex) :
    executeQuery ctx idx [] = .ok (.pyString [], idx) := rfl

/-- Claim C9: a cross-reference token carrying the `nolink` tag is always
rendered as plain styled bold text — independent of the store, hence of
whether a matching entry exists — with style class `affix` if the link
text contains a hyphen, else the token's type if present, else `sen`. -/
theorem c9_nolink_plain_text (ctx : Ctx) (link : PyStr)
    (h : strL "nolink" ∈ (parseLink link).2.2.1) :
    fixLink ctx link =
      .ok (strL "<b class=\"pos-" ++
        (if '-' ∈ (parseLink link).1 then strL "affix"
         else if (parseLink link).2.1 ≠ [] then (parseLink link).2.1
         else strL "sen") ++
        strL "\" okrand>" ++ (parseLink link).1 ++ strL "</b>") := by
  simp only [fixLink, h, if_true, if_pos]

/-- Claim C9, witness: the token `Soj:n:1,nolink` of the spec's example,
rendered against the empty store. -/
theorem c9_nolink_witness :
    strL "nolink" ∈ (parseLink (strL "Soj:n:1,nolink")).2.2.1 ∧
    fixLink ctxZero (strL "Soj:n:1,nolink") =
      .ok (strL "<b class=\"pos-n\" okrand>Soj</b>") :=
  ⟨by decide,
    (c9_nolink_plain_text ctxZero (strL "Soj:n:1,nolink") (by decide)).trans
      (by decide)⟩

/-- Claim C4, amended: `global_parenthetical` can only be set when the
semicolon/comma split produced at least two raw segments; whenever the
split yields at most one segment the result has no global parenthetical.
(A one-*part* result can still carry one, exactly when the final segment
consisted entirely of the promoted parenthetical and was emptied by the
extraction.) -/
theorem c4_global_unset (text : PyStr) (pos : Option PyStr)
    (h : (rawSegments (pyStrip text)).length ≤ 1) :
    (parseDefinition text pos).global_parenthetical = none := by
  simp only [parseDefinition]
  split_ifs <;> first | rfl | omega

/-- Claim C4, witness: a definition splitting into one segment. -/
theorem c4_global_unset_witness :
    (rawSegments (pyStrip (strL "run"))).length ≤ 1 ∧
    (parseDefinition (strL "run") none).global_parenthetical = none :=
  ⟨by decide, c4_global_unset (strL "run") none (by decide)⟩

/-- Claim C7, amended: the enumeration marker is detected up front, but it
is only recorded in the result by the guard-case branch and by the
multi-segment splitting branch; the sentence-punctuation, bare
cross-reference, and zero/one-raw-segment branches return
`etc_suffix = false` (a bare cross-reference cannot end in the marker
anyway). -/
theorem c7_etc_recorded (text : PyStr) (pos : Option PyStr)
    (hne : pyStrip text ≠ [])
    (hbr : isGuardCase (pyStrip text) = true ∨
      (isGuardCase (pyStrip text) = false ∧
       sentencePunctCond (pyStrip text) = false ∧
       refTokenCond (pyStrip text) = false ∧
       2 ≤ (rawSegments (pyStrip text)).length)) :
    (parseDefinition text pos).etc_suffix = etcSuffixOf (pyStrip text) := by
  unfold parseDefinition
  rcases hbr with hg | ⟨hg, hs, hr, hlen⟩
  · rw [if_neg (by simp [hne]), if_pos hg]
  · rw [if_neg (by simp [hne]), if_neg (by simp [hg]), if_neg (by simp [hs]),
      if_neg (by simp [hr]), if_neg (by omega), if_neg (by omega)]

/-- Claim C7, witness: a guard-case definition ending in the marker. -/
theorem c7_etc_recorded_witness :
    pyStrip (strL "bird with red wings, etc.") ≠ [] ∧
    isGuardCase (pyStrip (strL "bird with red wings, etc.")) = true ∧
    (parseDefinition (strL "bird with red wings, etc.") none).etc_suffix =
      etcSuffixOf (pyStrip (strL "bird with red wings, etc.")) :=
  ⟨by decide, by decide,
    c7_etc_recorded (strL "bird with red wings, etc.") none (by decide)
      (Or.inl (by decide))⟩

/-! ## Claim C2 : "a OR b" -/

lemma dslTokenizeAux_word (w : PyStr) :
    (∀ c ∈ w, c ≠ ' ' ∧ c ≠ '(' ∧ c ≠ ')' ∧ c ≠ '"') →
    ∀ s acc cur, dslTokenizeAux (w ++ s) false acc cur =
      dslTokenizeAux s false acc (cur ++ w) := by
  induction w with
  | nil => intro _ s acc cur; simp
  | cons c cs ih =>
    intro hw s acc cur
    have hc := hw c (List.mem_cons_self c cs)
    simp only [List.cons_append, dslTokenizeAux]
    rw [if_neg (by simp [hc.1]), if_neg (by simp [hc.2.1, hc.2.2.1]),
      if_neg (by simp [hc.2.2.2])]
    have := ih (fun x hx => hw x (List.mem_cons_of_mem c hx)) s acc (cur ++ [c])
    simpa using this

lemma dslTokenizeAux_space (s : PyStr) (acc : List PyStr) (cur : PyStr) :
    dslTokenizeAux (' ' :: s) false acc cur =
      dslTokenizeAux s false (acc ++ [cur]) [] := by
  simp [dslTokenizeAux]

lemma dslTokenizeAux_last (w : PyStr) :
    (∀ c ∈ w, c ≠ ' ' ∧ c ≠ '(' ∧ c ≠ ')' ∧ c ≠ '"') →
    ∀ acc cur, dslTokenizeAux w false acc cur = acc ++ [cur ++ w] := by
  intro hw acc cur
  have := dslTokenizeAux_word w hw [] acc cur
  simpa [dslTokenizeAux] using this

/-- Tokenizing `a OR b` for word-shaped `a`, `b`. -/
lemma dslTokenize_aORb (a b : PyStr)
    (ha : ∀ c ∈ a, c ≠ ' ' ∧ c ≠ '(' ∧ c ≠ ')' ∧ c ≠ '"')
    (hb : ∀ c ∈ b, c ≠ ' ' ∧ c ≠ '(' ∧ c ≠ ')' ∧ c ≠ '"') :
    dslTokenize (a ++ strL " OR " ++ b) = [a, strL "OR", b] := by
  unfold dslTokenize
  rw [List.append_assoc,
    show strL " OR " ++ b = ' ' :: (strL "OR" ++ (' ' :: b)) from rfl,
    dslTokenizeAux_word a ha, dslTokenizeAux_space,
    dslTokenizeAux_word (strL "OR") (by decide), dslTokenizeAux_space,
    dslTokenizeAux_last b hb]
  simp

lemma parseTerm_bare (ctx : Ctx) (f : Nat) (w : PyStr) (rest : List PyStr)
    (h1 : w ≠ strL "(") (h2 : ¬ (w = strL "NOT" ∨ w = strL "EI"))
    (h3 : ':' ∉ w) :
    parseTerm ctx (f + 1) (w :: rest) =
      ((fun e => .ok (bareWordPred ctx w e)), rest) := by
  simp only [parseTerm]
  rw [if_neg h1, if_neg h2, if_neg h3]

lemma parseAnd_single_bare (ctx : Ctx) (f : Nat) (w : PyStr)
    (h1 : w ≠ strL "(") (h2 : ¬ (w = strL "NOT" ∨ w = strL "EI"))
    (h3 : ':' ∉ w) :
    parseAnd ctx (f + 2) [w] = ((fun e => .ok (bareWordPred ctx w e)), []) := by
  show parseAnd ctx ((f + 1) + 1) [w] = _
  simp only [parseAnd]
  rw [parseTerm_bare ctx f w [] h1 h2 h3]
  rfl

lemma parseAnd_bare_stop (ctx : Ctx) (f : Nat) (w p : PyStr) (rest : List PyStr)
    (h1 : w ≠ strL "(") (h2 : ¬ (w = strL "NOT" ∨ w = strL "EI"))
    (h3 : ':' ∉ w) (hp : p = strL ")" ∨ p = strL "OR" ∨ p = strL "TAI") :
    parseAnd ctx (f + 2) (w :: p :: rest) =
      ((fun e => .ok (bareWordPred ctx w e)), p :: rest) := by
  show parseAnd ctx ((f + 1) + 1) _ = _
  simp only [parseAnd]
  rw [parseTerm_bare ctx f w (p :: rest) h1 h2 h3]
  show parseAndLoop ctx (f + 1) _ _ = _
  cases f with
  | zero => simp only [parseAndLoop]; rw [if_pos hp]
  | succ f => simp only [parseAndLoop]; rw [if_pos hp]

/-- Parsing the token list `[a, OR, b]` yields the disjunction of the two
bare-word predicates. -/
lemma parseOr_two_bare (ctx : Ctx) (f : Nat) (a b : PyStr)
    (ha1 : a ≠ strL "(") (ha2 : ¬ (a = strL "NOT" ∨ a = strL "EI"))
    (ha3 : ':' ∉ a)
    (hb1 : b ≠ strL "(") (hb2 : ¬ (b = strL "NOT" ∨ b = strL "EI"))
    (hb3 : ':' ∉ b) :
    parseOr ctx (f + 5) [a, strL "OR", b] =
      (orPred (fun e => .ok (bareWordPred ctx a e))
        (fun e => .ok (bareWordPred ctx b e)), []) := by
  show parseOr ctx ((f + 4) + 1) _ = _
  simp only [parseOr]
  rw [show (f + 4 : Nat) = (f + 2) + 2 by omega,
    parseAnd_bare_stop ctx (f + 2) a (strL "OR") [b] ha1 ha2 ha3
      (Or.inr (Or.inl rfl))]
  show parseOrLoop ctx ((f + 3) + 1) _ _ = _
  simp only [parseOrLoop]
  rw [show (f + 3 : Nat) = (f + 1) + 2 by omega,
    parseAnd_single_bare ctx (f + 1) b hb1 hb2 hb3]
  simp

/-- The entry loop of `dsl_query` with an empty exclusion set and a
never-raising predicate renders exactly the filtered store, in store
order. -/
lemma dslRun_eq_renderSeq_filter (ctx : Ctx) (f : Pred) (g : Entry → Bool)
    (hf : ∀ e, f e = .ok (g e)) :
    ∀ (l : List (PyStr × Entry)) (idx : DIndex),
      dslRun ctx f [] idx l = renderSeq ctx idx (l.filter (fun p => g p.2)) := by
  intro l
  induction l with
  | nil => intro idx; rfl
  | cons p rest ih =>
    intro idx
    obtain ⟨pid, e⟩ := p
    simp only [dslRun, hf e, List.filter]
    cases hg : g e with
    | true =>
      simp only [List.contains, List.elem_nil, Bool.not_false, Bool.true_and,
        if_true, renderSeq]
      congr 1
      funext ri
      rw [ih ri.2]
    | false =>
      simp only [List.contains, List.elem_nil, Bool.not_false, Bool.true_and,
        Bool.and_false, if_false]
      exact ih idx

lemma orPred_ok (A B : Entry → Bool) (e : Entry) :
    orPred (fun e => .ok (A e)) (fun e => .ok (B e)) e = .ok (A e || B e) := by
  show Except.bind (Except.ok (A e))
      (fun x => if x = true then pure true else Except.ok (B e)) =
    Except.ok (A e || B e)
  cases hA : A e <;> rfl

/-- Claim C2, amended: for bare word terms `a` and `b`, the DSL query
`a OR b` (evaluated with nothing excluded) returns exactly the union of
the entries matched by `a` and by `b` — but ordered as a single pass over
the store (store order of the union), not as all of `a`'s matches
followed by `b`'s remaining matches. -/
theorem c2_or_union (ctx : Ctx) (idx : DIndex) (a b : PyStr)
    (ha : ∀ c ∈ a, c ≠ ' ' ∧ c ≠ '(' ∧ c ≠ ')' ∧ c ≠ '"' ∧ c ≠ ':')
    (hb : ∀ c ∈ b, c ≠ ' ' ∧ c ≠ '(' ∧ c ≠ ')' ∧ c ≠ '"' ∧ c ≠ ':')
    (hna : a ≠ strL "NOT" ∧ a ≠ strL "EI")
    (hnb : b ≠ strL "NOT" ∧ b ≠ strL "EI") :
    dslQuery ctx idx (a ++ strL " OR " ++ b) [] =
      renderSeq ctx idx (ctx.entries.filter
        (fun p => bareWordPred ctx a p.2 || bareWordPred ctx b p.2)) ∧
    ∀ p, (p ∈ ctx.entries.filter
        (fun p => bareWordPred ctx a p.2 || bareWordPred ctx b p.2)) ↔
      (p ∈ ctx.entries.filter (fun p => bareWordPred ctx a p.2) ∨
       p ∈ ctx.entries.filter (fun p => bareWordPred ctx b p.2)) := by
  have ha4 : ∀ c ∈ a, c ≠ ' ' ∧ c ≠ '(' ∧ c ≠ ')' ∧ c ≠ '"' :=
    fun c hc => ⟨(ha c hc).1, (ha c hc).2.1, (ha c hc).2.2.1, (ha c hc).2.2.2.1⟩
  have hb4 : ∀ c ∈ b, c ≠ ' ' ∧ c ≠ '(' ∧ c ≠ ')' ∧ c ≠ '"' :=
    fun c hc => ⟨(hb c hc).1, (hb c hc).2.1, (hb c hc).2.2.1, (hb c hc).2.2.2.1⟩
  have ha1 : a ≠ strL "(" := by
    intro h
    exact ((h ▸ ha) '(' (by decide)).2.1 rfl
  have hb1 : b ≠ strL "(" := by
    intro h
    exact ((h ▸ hb) '(' (by decide)).2.1 rfl
  have ha3 : ':' ∉ a := fun hc => (ha ':' hc).2.2.2.2 rfl
  have hb3 : ':' ∉ b := fun hc => (hb ':' hc).2.2.2.2 rfl
  constructor
  · unfold dslQuery
    rw [dslTokenize_aORb a b ha4 hb4]
    show dslRun ctx
      (parseOr ctx (parserFuel [a, strL "OR", b]) [a, strL "OR", b]).1 []
      idx ctx.entries = _
    rw [show parserFuel [a, strL "OR", b] = 5 + 5 from rfl,
      parseOr_two_bare ctx 5 a b ha1 (not_or.mpr hna) ha3 hb1 (not_or.mpr hnb) hb3]
    exact dslRun_eq_renderSeq_filter ctx _
      (fun e => bareWordPred ctx a e || bareWordPred ctx b e)
      (orPred_ok (bareWordPred ctx a) (bareWordPred ctx b)) ctx.entries idx
  · intro p
    simp only [List.mem_filter, Bool.or_eq_true]
    tauto

/-- Claim C2, counterexample: on a store holding `ro` before `ta`, the
query `ta OR ro` does not return `ta`'s matches first: the single pass
over the store yields `ro` (matched only by the second disjunct) before
`ta`. -/
theorem c2_counterexample :
    dslQuery ctxTwo [] (strL "ta OR ro") [] ≠
      renderSeq ctxTwo []
        (ctxTwo.entries.filter
            (fun p => bareWordPred ctxTwo (strL "ta") p.2) ++
          (ctxTwo.entries.filter
              (fun p => bareWordPred ctxTwo (strL "ro") p.2)).filter
            (fun p => !bareWordPred ctxTwo (strL "ta") p.2)) := by
  decide

/-- Claim C2, witness: the amended union theorem at the two-entry store,
with `a = ta`, `b = ro`. -/
theorem c2_or_union_witness :
    (∀ c ∈ strL "ta", c ≠ ' ' ∧ c ≠ '(' ∧ c ≠ ')' ∧ c ≠ '"' ∧ c ≠ ':') ∧
    (∀ c ∈ strL "ro", c ≠ ' ' ∧ c ≠ '(' ∧ c ≠ ')' ∧ c ≠ '"' ∧ c ≠ ':') ∧
    (dslQuery ctxTwo [] (strL "ta" ++ strL " OR " ++ strL "ro") [] =
      renderSeq ctxTwo [] (ctxTwo.entries.filter
        (fun p => bareWordPred ctxTwo (strL "ta") p.2 ||
          bareWordPred ctxTwo (strL "ro") p.2)) ∧
    ∀ p, (p ∈ ctxTwo.entries.filter
        (fun p => bareWordPred ctxTwo (strL "ta") p.2 ||
          bareWordPred ctxTwo (strL "ro") p.2)) ↔
      (p ∈ ctxTwo.entries.filter
        (fun p => bareWordPred ctxTwo (strL "ta") p.2) ∨
       p ∈ ctxTwo.entries.filter
        (fun p => bareWordPred ctxTwo (strL "ro") p.2))) :=
  ⟨by decide, by decide,
    c2_or_union ctxTwo [] (strL "ta") (strL "ro") (by decide) (by decide)
      (by decide) (by decide)⟩

/-! ## Claim C3 : error containment -/

/-- Python-visible success of a possibly-raising computation. -/
def exceptOk {α : Type} : Except Unit α → Bool
  | .ok _ => true
  | .error _ => false

/-- Every entry stored in the derived index renders without raising. -/
abbrev IdxOk (ctx : Ctx) (idx : DIndex) : Prop :=
  ∀ kv ∈ idx, ∀ e ∈ kv.2, exceptOk (renderEntryCore ctx e) = true

lemma dIndexLookup_some_mem {idx : DIndex} {k : PyStr} {l : List Entry}
    (h : dIndexLookup idx k = some l) : ∃ kv ∈ idx, kv.2 = l := by
  unfold dIndexLookup at h
  cases hf : idx.find? (fun p => p.1 = k) with
  | none => rw [hf] at h; simp at h
  | some kv =>
    rw [hf] at h
    simp only [Option.map_some'] at h
    exact ⟨kv, List.mem_of_find?_eq_some hf, by injection h⟩

lemma dAccess_fst_ok (ctx : Ctx) {idx : DIndex} (h : IdxOk ctx idx) (k : PyStr) :
    ∀ e ∈ (dAccess idx k).1, exceptOk (renderEntryCore ctx e) = true := by
  intro e he
  unfold dAccess at he
  cases hl : dIndexLookup idx k with
  | none => rw [hl] at he; simp at he
  | some l =>
    rw [hl] at he
    simp only at he
    obtain ⟨kv, hkv, h2⟩ := dIndexLookup_some_mem hl
    exact h kv hkv e (h2 ▸ he)

lemma dAccess_snd_idxOk (ctx : Ctx) {idx : DIndex} (h : IdxOk ctx idx)
    (k : PyStr) : IdxOk ctx (dAccess idx k).2 := by
  unfold dAccess
  cases hl : dIndexLookup idx k with
  | some l => exact h
  | none =>
    intro kv hkv e he
    rcases List.mem_append.mp hkv with h1 | h2
    · exact h kv h1 e he
    · simp only [List.mem_singleton] at h2
      rw [h2] at he
      simp at he

lemma renderDerivedList_isOk (ctx : Ctx) {l : List Entry}
    (h : ∀ e ∈ l, exceptOk (renderEntryCore ctx e) = true) :
    exceptOk (renderDerivedList ctx l) = true := by
  induction l with
  | nil => rfl
  | cons x xs ih =>
    have hx := h x (List.mem_cons_self x xs)
    simp only [renderDerivedList]
    cases hcx : renderEntryCore ctx x with
    | error err => rw [hcx] at hx; simp [exceptOk] at hx
    | ok y =>
      have hxs := ih (fun e he => h e (List.mem_cons_of_mem x he))
      cases hds : renderDerivedList ctx xs with
      | error err => rw [hds] at hxs; simp [exceptOk] at hxs
      | ok ys => rfl

lemma renderEntry_isOk (ctx : Ctx) {idx : DIndex} {e : Entry}
    (hc : exceptOk (renderEntryCore ctx e) = true) (hidx : IdxOk ctx idx)
    (d : Bool) : exceptOk (renderEntry ctx idx e d) = true := by
  unfold renderEntry
  cases hce : renderEntryCore ctx e with
  | error err => rw [hce] at hc; simp [exceptOk] at hc
  | ok base =>
    cases d with
    | false => rfl
    | true =>
      have hv := renderDerivedList_isOk ctx (dAccess_fst_ok ctx hidx e.id)
      cases hds : renderDerivedList ctx (dAccess idx e.id).1 with
      | error err => rw [hds] at hv; simp [exceptOk] at hv
      | ok views => simp only [hds]; rfl

lemma renderEntry_ok_idxOk (ctx : Ctx) {idx idx' : DIndex} {e : Entry}
    {r : Rendered} {d : Bool} (heq : renderEntry ctx idx e d = .ok (r, idx'))
    (hidx : IdxOk ctx idx) : IdxOk ctx idx' := by
  unfold renderEntry at heq
  cases hce : renderEntryCore ctx e with
  | error err => simp only [hce] at heq; exact Except.noConfusion heq
  | ok base =>
    simp only [hce] at heq
    cases d with
    | false =>
      simp only [Bool.false_eq_true, if_false, Except.ok.injEq,
        Prod.mk.injEq] at heq
      exact heq.2 ▸ hidx
    | true =>
      cases hds : renderDerivedList ctx (dAccess idx e.id).1 with
      | error err =>
        simp only [hds, if_true] at heq
        exact Except.noConfusion heq
      | ok views =>
        simp only [hds, if_true, Except.ok.injEq, Prod.mk.injEq] at heq
        exact heq.2 ▸ dAccess_snd_idxOk ctx hidx e.id

lemma dslRun_isOk (ctx : Ctx) (f : Pred) (included : List PyStr) :
    ∀ (l : List (PyStr × Entry)) (idx : DIndex),
      (∀ p ∈ l, exceptOk (renderEntryCore ctx p.2) = true) →
      IdxOk ctx idx →
      exceptOk (dslRun ctx f included idx l) = true := by
  intro l
  induction l with
  | nil => intro idx _ _; rfl
  | cons p rest ih =>
    intro idx hl hid
    obtain ⟨pid, e⟩ := p
    simp only [dslRun]
    split
    · cases hre : renderEntry ctx idx e true with
      | error err =>
        have hok := renderEntry_isOk ctx (hl (pid, e) (List.mem_cons_self _ _))
          hid true
        rw [hre] at hok
        simp [exceptOk] at hok
      | ok ri =>
        show exceptOk
          (match dslRun ctx f included ri.2 rest with
           | Except.error err => Except.error err
           | Except.ok rs => Except.ok (ri.1 :: rs.1, rs.2)) = true
        cases hrest : dslRun ctx f included ri.2 rest with
        | error err =>
          have hok := ih ri.2 (fun q hq => hl q (List.mem_cons_of_mem _ hq))
            (renderEntry_ok_idxOk ctx hre hid)
          rw [hrest] at hok
          simp [exceptOk] at hok
        | ok rs => rfl
    · exact ih idx (fun q hq => hl q (List.mem_cons_of_mem _ hq)) hid

/-- Claim C3, amended: `dsl_query` confines failures of term predicates
to the single term-entry evaluation (the `try/except` turns them into
"no match"): over any store whose entries (and any entries already in the
derived index) render without raising, *no* query string can make
`dsl_query` raise, whatever the predicates do.  Failures during rendering
are *not* caught, however, and propagate out of `execute_query`
(see the counterexample). -/
theorem c3_predicate_errors_contained (ctx : Ctx) (idx : DIndex)
    (query : PyStr) (included : List PyStr)
    (h1 : ∀ p ∈ ctx.entries, exceptOk (renderEntryCore ctx p.2) = true)
    (h2 : IdxOk ctx idx) :
    exceptOk (dslQuery ctx idx query included) = true :=
  dslRun_isOk ctx _ included ctx.entries idx h1 h2

/-- A context whose regex engine raises on every call: every field-term
predicate evaluation fails. -/
def ctxErr : Ctx :=
  { entries := [(strL "ro:n", entryRo), (strL "ta:n", entryTa)],
    lang := strL "en", localeStrings := fun _ => [],
    reSearch := fun _ _ => .error (), reSearchCI := fun _ _ => .error () }

/-- Claim C3, witness: with the always-raising regex engine, the query
`tlh:x` (whose predicate raises on every entry) still completes. -/
theorem c3_containment_witness :
    (∀ p ∈ ctxErr.entries, exceptOk (renderEntryCore ctxErr p.2) = true) ∧
    IdxOk ctxErr [] ∧
    exceptOk (dslQuery ctxErr [] (strL "tlh:x") []) = true :=
  ⟨by decide, by decide,
    c3_predicate_errors_contained ctxErr [] (strL "tlh:x") [] (by decide)
      (by decide)⟩

/-- Claim C3, counterexample: rendering failures are not contained.  On a
store whose single entry `ta` has an unterminated `{` in its definition,
`execute_query("ta")` propagates the exception (`text.index("}")` raises
inside `fix_links`, which no caller catches) instead of returning results
for the remaining scope. -/
theorem c3_counterexample :
    executeQuery ctxBad [] (strL "ta") = .error () := by decide

/-! ## Claim C6 : frame effect of queries on the derived index -/

/-- How a completed query may change the derived index: every existing
key keeps its list unchanged, and a key it adds maps to the empty list
(so every lookup observes the same value as before). -/
abbrev IdxExt (idx idx' : DIndex) : Prop :=
  ∀ k : PyStr,
    (∀ v, dIndexLookup idx k = some v → dIndexLookup idx' k = some v) ∧
    (dIndexLookup idx k = none →
      dIndexLookup idx' k = none ∨ dIndexLookup idx' k = some [])

lemma idxExt_refl (idx : DIndex) : IdxExt idx idx :=
  fun _ => ⟨fun _ h => h, fun h => Or.inl h⟩

lemma idxExt_trans {i1 i2 i3 : DIndex} (h12 : IdxExt i1 i2)
    (h23 : IdxExt i2 i3) : IdxExt i1 i3 := by
  intro k
  constructor
  · intro v h
    exact (h23 k).1 v ((h12 k).1 v h)
  · intro h
    rcases (h12 k).2 h with h2 | h2
    · exact (h23 k).2 h2
    · exact Or.inr ((h23 k).1 [] h2)

lemma dAccess_ext (idx : DIndex) (k : PyStr) : IdxExt idx (dAccess idx k).2 := by
  unfold dAccess
  cases hl : dIndexLookup idx k with
  | some l => exact idxExt_refl idx
  | none =>
    intro k'
    constructor
    · intro v hv
      unfold dIndexLookup at hv ⊢
      cases hf : idx.find? (fun p => p.1 = k') with
      | none => rw [hf] at hv; simp at hv
      | some kv =>
        rw [hf] at hv
        rw [List.find?_append, hf]
        simpa using hv
    · intro hv
      unfold dIndexLookup at hv ⊢
      cases hf : idx.find? (fun p => p.1 = k') with
      | some kv => rw [hf] at hv; simp at hv
      | none =>
        rw [List.find?_append, hf]
        by_cases hkk : k = k'
        · subst hkk
          right
          simp
        · left
          simp [List.find?, hkk]

lemma renderEntry_ext {ctx : Ctx} {idx idx' : DIndex} {e : Entry} {d : Bool}
    {r : Rendered} (heq : renderEntry ctx idx e d = .ok (r, idx')) :
    IdxExt idx idx' := by
  unfold renderEntry at heq
  cases hce : renderEntryCore ctx e with
  | error err => simp only [hce] at heq; exact Except.noConfusion heq
  | ok base =>
    simp only [hce] at heq
    cases d with
    | false =>
      simp only [Bool.false_eq_true, if_false, Except.ok.injEq,
        Prod.mk.injEq] at heq
      exact heq.2 ▸ idxExt_refl idx
    | true =>
      cases hds : renderDerivedList ctx (dAccess idx e.id).1 with
      | error err =>
        simp only [hds, if_true] at heq
        exact Except.noConfusion heq
      | ok views =>
        simp only [hds, if_true, Except.ok.injEq, Prod.mk.injEq] at heq
        exact heq.2 ▸ dAccess_ext idx e.id

lemma dslRun_ext (ctx : Ctx) (f : Pred) (inc : List PyStr) :
    ∀ (l : List (PyStr × Entry)) (idx : DIndex) (res : List Rendered × DIndex),
      dslRun ctx f inc idx l = .ok res → IdxExt idx res.2 := by
  intro l
  induction l with
  | nil =>
    intro idx res h
    simp only [dslRun, Except.ok.injEq] at h
    subst h
    exact idxExt_refl idx
  | cons p rest ih =>
    intro idx res h
    obtain ⟨pid, e⟩ := p
    simp only [dslRun] at h
    split at h
    · cases hre : renderEntry ctx idx e true with
      | error err => simp only [hre] at h; exact Except.noConfusion h
      | ok ri =>
        simp only [hre] at h
        cases hrest : dslRun ctx f inc ri.2 rest with
        | error err => simp only [hrest] at h; exact Except.noConfusion h
        | ok rs =>
          simp only [hrest, Except.ok.injEq] at h
          subst h
          exact idxExt_trans (renderEntry_ext hre) (ih ri.2 rs hrest)
    · exact ih idx res h

lemma partsRenderLoop_ext (ctx : Ctx) :
    ∀ (parts : List PyStr) (idx : DIndex) (inc : List PyStr)
      (res : List Rendered × List PyStr × DIndex),
      partsRenderLoop ctx idx parts inc = .ok res → IdxExt idx res.2.2 := by
  intro parts
  induction parts with
  | nil =>
    intro idx inc res h
    simp only [partsRenderLoop, Except.ok.injEq] at h
    subst h
    exact idxExt_refl idx
  | cons part rest ih =>
    intro idx inc res h
    simp only [partsRenderLoop] at h
    split at h
    · exact ih idx inc res h
    · cases hg : aGet ctx.entries part with
      | none => simp only [hg] at h; exact Except.noConfusion h
      | some e =>
        simp only [hg] at h
        cases hre : renderEntry ctx idx e true with
        | error err => simp only [hre] at h; exact Except.noConfusion h
        | ok ri =>
          simp only [hre] at h
          cases hrest : partsRenderLoop ctx ri.2 rest (inc ++ [part]) with
          | error err => simp only [hrest] at h; exact Except.noConfusion h
          | ok rs =>
            simp only [hrest, Except.ok.injEq] at h
            subst h
            exact idxExt_trans (renderEntry_ext hre)
              (ih ri.2 (inc ++ [part]) rs hrest)

lemma executeQuery_ext (ctx : Ctx) (idx : DIndex) (q : PyStr)
    {res : QueryResult} {idx' : DIndex}
    (h : executeQuery ctx idx q = .ok (res, idx')) : IdxExt idx idx' := by
  simp only [executeQuery] at h
  split at h
  · simp only [Except.ok.injEq, Prod.mk.injEq] at h
    exact h.2 ▸ idxExt_refl idx
  · split at h
    · exact Except.noConfusion h
    · split at h
      · exact Except.noConfusion h
      · split at h
        · exact Except.noConfusion h
        · rename_i pr heq3
          split at h
          · exact Except.noConfusion h
          · rename_i dr heq4
            simp only [Except.ok.injEq, Prod.mk.injEq] at h
            exact idxExt_trans (partsRenderLoop_ext ctx _ idx [] pr heq3)
              (h.2 ▸ dslRun_ext ctx _ _ ctx.entries pr.2.2 dr heq4)

/-- Claim C6, amended: a completed `execute_query` never modifies the
entry store (nothing in the query/render path writes to it) and never
changes the *value* any derived-index lookup observes: every existing
index key keeps exactly its list.  However, the index is *not* left
literally unchanged: `render_entry`'s `derived_index[entry.id]` read on a
`defaultdict` inserts an empty list under each rendered entry's id that
was missing, so the key set can grow (with `[]` values only). -/
theorem c6_index_extension (ctx : Ctx) (idx : DIndex) (q : PyStr)
    (idx' : DIndex)
    (h : (executeQuery ctx idx q).map Prod.snd = .ok idx') :
    IdxExt idx idx' := by
  cases heq : executeQuery ctx idx q with
  | error err => rw [heq] at h; exact Except.noConfusion h
  | ok p =>
    rw [heq] at h
    simp only [Except.map] at h
    injection h with h2
    exact h2 ▸ executeQuery_ext ctx idx q heq

/-- Claim C6, counterexample: a query that renders entry `ta` adds the
missing key `ta:n` (mapped to the empty list) to the derived index — the
index is not read-only during query evaluation. -/
theorem c6_counterexample :
    (executeQuery ctxTwo [] (strL "ta")).map Prod.snd =
      .ok [(strL "ta:n", [])] ∧
    ([(strL "ta:n", [])] : DIndex) ≠ [] := by
  exact ⟨by decide, by simp⟩

/-- Claim C6, witness: the extension theorem applied to that query. -/
theorem c6_index_extension_witness :
    (executeQuery ctxTwo [] (strL "ta")).map Prod.snd =
      .ok [(strL "ta:n", [])] ∧
    IdxExt [] [(strL "ta:n", [])] :=
  ⟨by decide,
    c6_index_extension ctxTwo [] (strL "ta") [(strL "ta:n", [])] (by decide)⟩

/-! ## Claim C10 : the derived index and derived-word rendering -/

/-- `X` is recorded in the derived index under key `k`. -/
abbrev memX (idx : DIndex) (k : PyStr) (X : Entry) : Prop :=
  ∃ l, dIndexLookup idx k = some l ∧ X ∈ l

/-- A `defaultdict` append changes exactly the touched key, extending its
list (created as `[v]` when missing). -/
lemma dIndexLookup_dAppend (idx : DIndex) (k' : PyStr) (v : Entry)
    (k : PyStr) :
    dIndexLookup (dAppend idx k' v) k =
      if k = k' then some ((dIndexLookup idx k').getD [] ++ [v])
      else dIndexLookup idx k := by
  unfold dAppend dIndexLookup
  cases hf' : idx.find? (fun p => p.1 = k') with
  | some kv =>
    have hk' : kv.1 = k' := by simpa using List.find?_some hf'
    simp only [hf', Option.isSome_some, if_true]
    rw [List.find?_map]
    have hpred : ((fun p : PyStr × List Entry => decide (p.1 = k)) ∘
        (fun p : PyStr × List Entry =>
          if p.1 = k' then (p.1, p.2 ++ [v]) else p)) =
        (fun p : PyStr × List Entry => decide (p.1 = k)) := by
      funext q
      by_cases hq : q.1 = k' <;> simp [hq]
    rw [hpred]
    by_cases hkk : k = k'
    · subst hkk
      rw [hf']
      simp [hk']
    · cases hf : idx.find? (fun p => p.1 = k) with
      | none => simp [hf, hkk]
      | some kv2 =>
        have hk2 : kv2.1 = k := by simpa using List.find?_some hf
        simp only [hf, Option.map_some', if_neg hkk]
        have : ¬ kv2.1 = k' := by rw [hk2]; exact hkk
        simp [this]
  | none =>
    simp only [hf', Option.isSome_none, Bool.false_eq_true, if_false]
    rw [List.find?_append]
    by_cases hkk : k = k'
    · subst hkk
      cases hf : idx.find? (fun p => p.1 = k) with
      | some kv2 => rw [hf] at hf'; exact Option.noConfusion hf'
      | none => simp [hf, hf', List.find?]
    · cases hf : idx.find? (fun p => p.1 = k) with
      | none => simp [hf, hkk, List.find?, Ne.symm hkk]
      | some kv2 => simp [hf, hkk]

lemma dAppend_memX_same (idx : DIndex) (k : PyStr) (X : Entry) :
    memX (dAppend idx k X) k X := by
  refine ⟨(dIndexLookup idx k).getD [] ++ [X], ?_, by simp⟩
  rw [dIndexLookup_dAppend]
  simp

lemma dAppend_memX_mono {idx : DIndex} {k : PyStr} {X : Entry}
    (h : memX idx k X) (k' : PyStr) (v : Entry) :
    memX (dAppend idx k' v) k X := by
  obtain ⟨l, hl, hX⟩ := h
  by_cases hkk : k = k'
  · subst hkk
    exact ⟨l ++ [v], by rw [dIndexLookup_dAppend]; simp [hl], by simp [hX]⟩
  · exact ⟨l, by rw [dIndexLookup_dAppend]; simp [hkk, hl], hX⟩

lemma addComponent_memX_same (X : Entry) (idx : DIndex) (c : PyStr) :
    memX (addComponent X idx c) c X := by
  unfold addComponent
  split
  · exact dAppend_memX_mono (dAppend_memX_same idx c X) _ X
  · exact dAppend_memX_same idx c X

lemma addComponent_memX_mono (e : Entry) {idx : DIndex} {k : PyStr}
    {X : Entry} (h : memX idx k X) (c : PyStr) :
    memX (addComponent e idx c) k X := by
  unfold addComponent
  split
  · exact dAppend_memX_mono (dAppend_memX_mono h c e) _ e
  · exact dAppend_memX_mono h c e

lemma foldl_addComponent_memX (e : Entry) {X : Entry} {k : PyStr} :
    ∀ (cs : List PyStr) (idx : DIndex),
      ((e = X ∧ k ∈ cs) ∨ memX idx k X) →
      memX (cs.foldl (addComponent e) idx) k X := by
  intro cs
  induction cs with
  | nil =>
    intro idx h
    rcases h with ⟨_, h⟩ | h
    · simp at h
    · exact h
  | cons c rest ih =>
    intro idx h
    simp only [List.foldl_cons]
    apply ih
    rcases h with ⟨rfl, hmem⟩ | h
    · rcases List.mem_cons.mp hmem with rfl | h2
      · exact Or.inr (addComponent_memX_same e idx k)
      · exact Or.inl ⟨rfl, h2⟩
    · exact Or.inr (addComponent_memX_mono e h c)

lemma makeDerivedIndexEntry_memX_self {idx idx2 : DIndex} {X : Entry}
    {ls : List PyStr} {k : PyStr}
    (hsen : strL "sen" ∉ X.tags)
    (hlinks : getLinks (X.components.getD []) = .ok ls)
    (hk : k ∈ ls)
    (h : makeDerivedIndexEntry idx X = .ok idx2) : memX idx2 k X := by
  unfold makeDerivedIndexEntry at h
  rw [if_neg hsen, hlinks] at h
  simp only [Except.ok.injEq] at h
  subst h
  exact foldl_addComponent_memX X ls idx (Or.inl ⟨rfl, hk⟩)

lemma makeDerivedIndexEntry_memX_mono {idx idx2 : DIndex} {e : Entry}
    {k : PyStr} {X : Entry}
    (hm : memX idx k X) (h : makeDerivedIndexEntry idx e = .ok idx2) :
    memX idx2 k X := by
  unfold makeDerivedIndexEntry at h
  split at h
  · simp only [Except.ok.injEq] at h
    subst h
    exact hm
  · cases hg : getLinks (e.components.getD []) with
    | error err => rw [hg] at h; exact Except.noConfusion h
    | ok links =>
      rw [hg] at h
      simp only [Except.ok.injEq] at h
      subst h
      exact foldl_addComponent_memX e links idx (Or.inr hm)

lemma makeDerivedIndexGo_memX {X : Entry} {xid k : PyStr} {ls : List PyStr}
    (hsen : strL "sen" ∉ X.tags)
    (hlinks : getLinks (X.components.getD []) = .ok ls)
    (hk : k ∈ ls) :
    ∀ (es : List (PyStr × Entry)) (idx0 idx : DIndex),
      makeDerivedIndexGo idx0 es = .ok idx →
      ((xid, X) ∈ es ∨ memX idx0 k X) → memX idx k X := by
  intro es
  induction es with
  | nil =>
    intro idx0 idx h hm
    simp only [makeDerivedIndexGo, Except.ok.injEq] at h
    subst h
    rcases hm with h | h
    · simp at h
    · exact h
  | cons p rest ih =>
    intro idx0 idx h hm
    simp only [makeDerivedIndexGo] at h
    cases he : makeDerivedIndexEntry idx0 p.2 with
    | error err => rw [he] at h; exact Except.noConfusion h
    | ok idx1 =>
      rw [he] at h
      apply ih idx1 idx h
      rcases hm with hmem | hmx
      · rcases List.mem_cons.mp hmem with heq | h2
        · right
          subst heq
          exact makeDerivedIndexEntry_memX_self hsen hlinks hk he
        · exact Or.inl h2
      · exact Or.inr (makeDerivedIndexEntry_memX_mono hmx he)

lemma renderDerivedList_mem (ctx : Ctx) :
    ∀ {l : List Entry} {ys : List RenderedBase},
      renderDerivedList ctx l = .ok ys →
      ∀ x ∈ l, ∃ y, renderEntryCore ctx x = .ok y ∧ y ∈ ys := by
  intro l
  induction l with
  | nil => intro ys _ x hx; simp at hx
  | cons a rest ih =>
    intro ys h x hx
    simp only [renderDerivedList] at h
    cases hca : renderEntryCore ctx a with
    | error err => rw [hca] at h; exact Except.noConfusion h
    | ok y =>
      rw [hca] at h
      cases hds : renderDerivedList ctx rest with
      | error err => rw [hds] at h; exact Except.noConfusion h
      | ok ys0 =>
        rw [hds] at h
        simp only [Except.ok.injEq] at h
        subst h
        rcases List.mem_cons.mp hx with rfl | h2
        · exact ⟨y, hca, List.mem_cons_self _ _⟩
        · obtain ⟨y2, hy2, hmem⟩ := ih hds x h2
          exact ⟨y2, hy2, List.mem_cons_of_mem _ hmem⟩

/-- Claim C10, amended: for every *non-sentence* entry X (entries tagged
`sen` are skipped when the index is built) whose `components` embed a
cross-reference resolving to identifier k, X is recorded in
`derived_index[k]`; and rendering any entry Y with `Y.id = k` and
`include_derivs=True` (when it succeeds) yields a `derived` list
containing the one-level view of X — a view produced with
`include_derivs=False`, which carries no `derived` list of its own. -/
theorem c10_derived_direction
    (entries : List (PyStr × Entry)) (idx : DIndex) (xid k : PyStr)
    (X : Entry) (ls : List PyStr)
    (hidx : makeDerivedIndex entries = .ok idx)
    (hmem : (xid, X) ∈ entries)
    (hsen : strL "sen" ∉ X.tags)
    (hlinks : getLinks (X.components.getD []) = .ok ls)
    (hk : k ∈ ls) :
    memX idx k X ∧
    ∀ (ctx : Ctx) (Y : Entry) (r : Rendered) (idx2 : DIndex),
      Y.id = k → renderEntry ctx idx Y true = .ok (r, idx2) →
      ∃ views, r.derived = some views ∧
        ∃ rx, renderEntryCore ctx X = .ok rx ∧ rx ∈ views := by
  have hmx : memX idx k X :=
    makeDerivedIndexGo_memX hsen hlinks hk entries [] idx hidx (Or.inl hmem)
  refine ⟨hmx, ?_⟩
  intro ctx Y r idx2 hY hre
  obtain ⟨l, hl, hXl⟩ := hmx
  unfold renderEntry at hre
  cases hce : renderEntryCore ctx Y with
  | error err => simp only [hce] at hre; exact Except.noConfusion hre
  | ok base =>
    simp only [hce, if_true] at hre
    have hacc : dAccess idx Y.id = (l, idx) := by
      unfold dAccess
      rw [hY, hl]
    simp only [hacc] at hre
    cases hds : renderDerivedList ctx l with
    | error err => simp only [hds] at hre; exact Except.noConfusion hre
    | ok views =>
      simp only [hds, Except.ok.injEq, Prod.mk.injEq] at hre
      obtain ⟨y, hy, hyv⟩ := renderDerivedList_mem ctx hds X hXl
      refine ⟨views, ?_, y, hy, hyv⟩
      have hne : views ≠ [] := by
        intro hv
        rw [hv] at hyv
        simp at hyv
      rw [← hre.1]
      simp [hne]

/-- Claim C10, counterexample: a *sentence* entry whose `components`
reference `ta:n` is skipped by `make_derived_index`, so it never appears
in `derived_index["ta:n"]` — the claim's universal quantification over
"every entry X" fails for `sen`-tagged entries. -/
theorem c10_counterexample :
    strL "sen" ∈ entrySen.tags ∧
    getLinks (entrySen.components.getD []) = .ok [strL "ta:n"] ∧
    entryTa.id = strL "ta:n" ∧
    makeDerivedIndex [(strL "ta:n", entryTa), (strL "S1:sen", entrySen)] =
      .ok [] ∧
    dIndexLookup [] (strL "ta:n") = none :=
  ⟨by decide, by decide, by decide, by decide, rfl⟩

/-- Claim C10, witness: `Da` (components referencing `ta:n`) lands in the
index under `ta:n`, and rendering `ta` lists its one-level view. -/
theorem c10_derived_direction_witness :
    makeDerivedIndex [(strL "ta:n", entryTa), (strL "Da:v", entryDa)] =
      .ok [(strL "ta:n", [entryDa]), (strL "ta:n:1", [entryDa])] ∧
    ((strL "Da:v", entryDa) ∈
      [(strL "ta:n", entryTa), (strL "Da:v", entryDa)]) ∧
    strL "sen" ∉ entryDa.tags ∧
    getLinks (entryDa.components.getD []) = .ok [strL "ta:n"] ∧
    (memX [(strL "ta:n", [entryDa]), (strL "ta:n:1", [entryDa])]
      (strL "ta:n") entryDa ∧
    ∀ (ctx : Ctx) (Y : Entry) (r : Rendered) (idx2 : DIndex),
      Y.id = strL "ta:n" →
      renderEntry ctx [(strL "ta:n", [entryDa]), (strL "ta:n:1", [entryDa])]
        Y true = .ok (r, idx2) →
      ∃ views, r.derived = some views ∧
        ∃ rx, renderEntryCore ctx entryDa = .ok rx ∧ rx ∈ views) :=
  ⟨by decide, by decide, by decide, by decide,
    c10_derived_direction
      [(strL "ta:n", entryTa), (strL "Da:v", entryDa)]
      [(strL "ta:n", [entryDa]), (strL "ta:n:1", [entryDa])]
      (strL "Da:v") (strL "ta:n") entryDa [strL "ta:n"]
      (by decide) (by decide) (by decide) (by decide) (by decide)⟩
